import Mathlib

/-!
Verification development for the voltlane core engine.

The Rust sources are shallowly embedded here:
- machine integers (u8/u16/u32/u64/usize/i16) are modelled as Nat/Int, with
  explicit `% 2 ^ 32` where the code relies on wrapping arithmetic; saturating
  u64 additions are ordinary Nat additions (the saturation bound is never
  reached by the quantities involved);
- f32/f64 arithmetic is modelled over the rationals.  The transcendental
  library calls (powf, log10, exp, tanh) and the TAU constant are abstracted
  into a `FloatOps` record of arbitrary rational functions, so every theorem
  below holds for every instantiation of the float library;
- Rust float `round` (round half away from zero) is `roundAway`, float-to-
  integer `as` casts are floor-truncation (the values at the cast sites are
  nonnegative and clamped into range by the code);
- `Uuid` is modelled as Nat, `HashMap`/`BTreeMap` as association lists with
  first-match lookup, `Vec` as `List`.
-/

set_option maxHeartbeats 1600000

namespace Voltlane

/-- Rust `f64::round` / `f32::round`: round half away from zero. -/
def roundAway (q : ℚ) : ℤ :=
  if 0 ≤ q then ⌊q + 1 / 2⌋ else -⌊-q + 1 / 2⌋

/-- Rational clamp, mirroring Rust `f32::clamp`/`f64::clamp` (for lo ≤ hi). -/
def qclamp (x lo hi : ℚ) : ℚ := max lo (min x hi)

/-- Integer clamp, mirroring Rust `i16::clamp`/`i32::clamp` (for lo ≤ hi). -/
def iclamp (x lo hi : ℤ) : ℤ := max lo (min x hi)

/-! ## Time mapper (src/crates/voltlane-core/src/time.rs) -/

/-- Embeds `ticks_to_seconds(ticks: u64, bpm: f64, ppq: u16) -> f64`. -/
def ticks_to_seconds (ticks : ℕ) (bpm : ℚ) (ppq : ℕ) : ℚ :=
  if bpm ≤ 0 ∨ ppq = 0 then 0
  else ((ticks : ℚ) / (ppq : ℚ)) * (60 / bpm)

/-- Embeds `seconds_to_ticks(seconds: f64, bpm: f64, ppq: u16) -> u64`. -/
def seconds_to_ticks (seconds : ℚ) (bpm : ℚ) (ppq : ℕ) : ℕ :=
  if seconds ≤ 0 ∨ bpm ≤ 0 ∨ ppq = 0 then 0
  else (roundAway (seconds * (bpm / 60) * (ppq : ℚ))).toNat

/-- Embeds `ticks_to_samples(ticks, bpm, ppq, sample_rate) -> u64`. -/
def ticks_to_samples (ticks : ℕ) (bpm : ℚ) (ppq : ℕ) (sample_rate : ℕ) : ℕ :=
  (roundAway (ticks_to_seconds ticks bpm ppq * (sample_rate : ℚ))).toNat

/-! ## Macro lanes (src/crates/voltlane-core/src/model.rs, export.rs) -/

/-- Model of `ChipMacroLane`; `values` holds the i16 step values. -/
structure ChipMacroLane where
  target : String
  enabled : Bool
  values : List ℤ
  loop_start : Option ℕ
  loop_end : Option ℕ
  deriving DecidableEq

/-- Embeds `macro_value_at_step(lane, step) -> i16` from export.rs. -/
def macro_value_at_step (lane : ChipMacroLane) (step : ℕ) : ℤ :=
  if lane.values = [] then 0
  else
    match lane.loop_start, lane.loop_end with
    | some ls, some le =>
      if ls ≤ le ∧ le < lane.values.length then
        if step ≤ le then
          lane.values.getD (min step (lane.values.length - 1)) 0
        else
          lane.values.getD
            (min (ls + (step - ls) % (le - ls + 1)) (lane.values.length - 1)) 0
      else lane.values.getD (min step (lane.values.length - 1)) 0
    | _, _ => lane.values.getD (min step (lane.values.length - 1)) 0

/-- Embeds `macro_value_for_note(lane, note_start_tick, lines_per_beat, ppq)`. -/
def macro_value_for_note (lane : ChipMacroLane) (note_start_tick : ℕ)
    (lines_per_beat ppq : ℕ) : Option ℤ :=
  if lane.values = [] ∨ lines_per_beat = 0 then none
  else
    let ticks_per_row := max (ppq / lines_per_beat) 1
    some (macro_value_at_step lane (note_start_tick / ticks_per_row))

/-- Modelled from the spec (section 4.2): the row index written there is
`floor(note start tick / (ppq / lines_per_beat))` with the exact rational
quotient `ppq / lines_per_beat`; this definition follows the spec wording and
is compared against the source-derived `macro_value_for_note`. -/
def spec_row_index (note_start_tick lines_per_beat ppq : ℕ) : ℕ :=
  (⌊(note_start_tick : ℚ) / ((ppq : ℚ) / (lines_per_beat : ℚ))⌋).toNat

/-! ## Chip backends (src/crates/voltlane-core/src/export.rs) -/

inductive ChipBackend where
  | GameBoyApu
  | NesApu
  | Sn76489
  | Generic
  deriving DecidableEq

/-- Embeds `chip_backend_duty_cycle(backend, value: i16) -> f32`. -/
def chip_backend_duty_cycle (backend : ChipBackend) (value : ℤ) : ℚ :=
  let value := iclamp value (-127) 127
  match backend with
  | .GameBoyApu | .NesApu =>
    let step := (iclamp value 0 3).toNat
    [(125 : ℚ) / 1000, 25 / 100, 5 / 10, 75 / 100].getD step 0
  | .Sn76489 | .Generic =>
    let normalized := ((value : ℚ) + 127) / 254
    qclamp (1 / 10 + normalized * (8 / 10)) (5 / 100) (95 / 100)

/-- Embeds `chip_backend_default_duty(backend) -> f32`. -/
def chip_backend_default_duty (backend : ChipBackend) : ℚ :=
  match backend with
  | .GameBoyApu => 1 / 2
  | .NesApu => 1 / 2
  | .Sn76489 => 1 / 2
  | .Generic => 1 / 2

/-! ## Waveform peaks (src/crates/voltlane-core/src/assets.rs) -/

/-- Rust slice `chunks(b)`: maximal runs of `b` elements, last chunk may be
shorter.  `chunks(0)` panics in Rust and cannot occur: `analyze_audio_file`
rejects `bucket_size == 0` before calling `generate_waveform_peaks`. -/
def chunksOf (b : ℕ) (l : List ℚ) : List (List ℚ) :=
  if h : b = 0 ∨ l = [] then []
  else l.take b :: chunksOf b (l.drop b)
termination_by l.length
decreasing_by
  simp only [List.length_drop]
  rcases Nat.eq_zero_or_pos b with hb | hb
  · exact absurd (Or.inl hb) h
  · have hl : l ≠ [] := fun hl => h (Or.inr hl)
    have : 0 < l.length := List.length_pos.mpr hl
    omega

/-- Embeds `generate_waveform_peaks(samples, bucket_size) -> Vec<f32>`. -/
def generate_waveform_peaks (samples : List ℚ) (bucket_size : ℕ) : List ℚ :=
  (chunksOf bucket_size samples).map
    (fun chunk => (chunk.map (fun x => |x|)).foldl max 0)

/-! ## Data model (src/crates/voltlane-core/src/model.rs) -/

inductive TrackKind where
  | Midi
  | Chip
  | Audio
  | Automation
  | Bus
  deriving DecidableEq

/-- Model of `TrackSend`; uuids are Nats, `Uuid::nil()` is 0. -/
structure TrackSend where
  id : ℕ
  target_bus : ℕ
  level_db : ℚ
  pan : ℚ
  pre_fader : Bool
  enabled : Bool
  deriving DecidableEq

/-- Model of `EffectSpec`; the `BTreeMap<String, f32>` parameter map is an
association list with unique keys and first-match lookup. -/
structure EffectSpec where
  id : ℕ
  name : String
  enabled : Bool
  params : List (String × ℚ)
  deriving DecidableEq

/-- Model of `MidiNote`. -/
structure MidiNote where
  pitch : ℕ
  velocity : ℕ
  start_tick : ℕ
  length_ticks : ℕ
  channel : ℕ
  deriving DecidableEq

/-- Embeds `MidiNote::end_tick` (u64 saturating add; Nat add suffices). -/
def MidiNote.end_tick (n : MidiNote) : ℕ := n.start_tick + n.length_ticks

structure MidiClip where
  instrument : Option String
  notes : List MidiNote
  deriving DecidableEq

/-- Model of `PatternClip` (`rows` are not consumed by the renderer and are
omitted). -/
structure PatternClip where
  source_chip : String
  notes : List MidiNote
  macros : List ChipMacroLane
  lines_per_beat : ℕ
  deriving DecidableEq

/-- Model of `AudioClip` (waveform-cache fields are not consumed by the
renderer and are omitted). -/
structure AudioClip where
  source_path : String
  gain_db : ℚ
  pan : ℚ
  source_duration_seconds : ℚ
  trim_start_seconds : ℚ
  trim_end_seconds : ℚ
  fade_in_seconds : ℚ
  fade_out_seconds : ℚ
  reverse : Bool
  stretch_ratio : ℚ
  deriving DecidableEq

/-- Embeds `AudioClip::normalized_trim_range`. -/
def AudioClip.normalized_trim_range (a : AudioClip) : ℚ × ℚ :=
  let source_duration := max a.source_duration_seconds 0
  let trim_start := qclamp a.trim_start_seconds 0 source_duration
  let trim_end := qclamp a.trim_end_seconds trim_start source_duration
  (trim_start, trim_end)

structure AutomationClip where
  target_parameter_id : String
  deriving DecidableEq

inductive ClipPayload where
  | Midi (clip : MidiClip)
  | Pattern (clip : PatternClip)
  | Audio (clip : AudioClip)
  | Automation (clip : AutomationClip)
  deriving DecidableEq

structure Clip where
  id : ℕ
  name : String
  start_tick : ℕ
  length_ticks : ℕ
  disabled : Bool
  payload : ClipPayload
  deriving DecidableEq

/-- Embeds `Clip::end_tick` (u64 saturating add; Nat add suffices). -/
def Clip.end_tick (c : Clip) : ℕ := c.start_tick + c.length_ticks

structure Track where
  id : ℕ
  name : String
  kind : TrackKind
  hidden : Bool
  mute : Bool
  solo : Bool
  enabled : Bool
  gain_db : ℚ
  pan : ℚ
  output_bus : Option ℕ
  sends : List TrackSend
  effects : List EffectSpec
  clips : List Clip
  deriving DecidableEq

/-- Model of `Project` (identity/metadata fields not read by the renderer are
omitted). -/
structure Project where
  bpm : ℚ
  ppq : ℕ
  sample_rate : ℕ
  tracks : List Track
  deriving DecidableEq

/-- Embeds `Project::max_tick`: maximum clip end tick across all tracks,
`0` for a project with no clips (`max().unwrap_or_default()`). -/
def Project.max_tick (p : Project) : ℕ :=
  ((p.tracks.flatMap (fun t => t.clips)).map Clip.end_tick).foldl max 0

/-! ## Routing mutations and validation (src/crates/voltlane-core/src/engine.rs) -/

inductive EngineError where
  | TrackNotFound (track_id : ℕ)
  | InvalidBusTarget (track_id : ℕ) (target_bus : ℕ)
  | InvalidTrackSend (track_id : ℕ) (target_bus : ℕ)
  | SendNotFound (send_id : ℕ)
  | RoutingCycleDetected
  deriving DecidableEq

/-- Embeds `validate_bus_target(tracks, track_id, target_bus)`. -/
def validate_bus_target (tracks : List Track) (track_id target_bus : ℕ) :
    Except EngineError Unit :=
  if track_id = target_bus then
    .error (.InvalidBusTarget track_id target_bus)
  else
    match tracks.find? (fun t => t.id = target_bus) with
    | none => .error (.InvalidBusTarget track_id target_bus)
    | some bus =>
      if bus.kind = .Bus then .ok ()
      else .error (.InvalidBusTarget track_id target_bus)

/-- The per-track send loop of the first phase of `validate_routing_graph`:
each enabled send target is validated, demoting the error to
`InvalidTrackSend`. -/
def validate_send_targets (tracks : List Track) (track_id : ℕ) :
    List TrackSend → Except EngineError Unit
  | [] => .ok ()
  | send :: rest =>
    if send.enabled then
      match validate_bus_target tracks track_id send.target_bus with
      | .error _ => .error (.InvalidTrackSend track_id send.target_bus)
      | .ok _ => validate_send_targets tracks track_id rest
    else validate_send_targets tracks track_id rest

/-- The first phase of `validate_routing_graph`: every output bus and every
enabled send target must be a distinct existing track of kind Bus. -/
def validate_routing_targets (tracks : List Track) :
    List Track → Except EngineError Unit
  | [] => .ok ()
  | track :: rest =>
    match
      (match track.output_bus with
       | some output_bus => validate_bus_target tracks track.id output_bus
       | none => .ok ()) with
    | .error e => .error e
    | .ok _ =>
      match validate_send_targets tracks track.id track.sends with
      | .error e => .error e
      | .ok _ => validate_routing_targets tracks rest

/-- Out-edges contributed by one track: its output bus plus every enabled
send target, in source order. -/
def track_edges (t : Track) : List ℕ :=
  (match t.output_bus with
   | some b => [b]
   | none => []) ++ (t.sends.filter (fun s => s.enabled)).map (fun s => s.target_bus)

/-- Append values to the entry of key `k` in an association list, creating the
entry if missing (`HashMap::entry(k).or_default()` followed by pushes). -/
def assocAppend (m : List (ℕ × List ℕ)) (k : ℕ) (vs : List ℕ) : List (ℕ × List ℕ) :=
  match m with
  | [] => [(k, vs)]
  | (k1, vs1) :: rest =>
    if k1 = k then (k1, vs1 ++ vs) :: rest else (k1, vs1) :: assocAppend rest k vs

/-- The adjacency map of `validate_routing_graph`: for each track an entry
holding its out-edges (entries of duplicate track ids are merged, as the
shared `HashMap` entry would be). -/
def adjacencyOf (tracks : List Track) : List (ℕ × List ℕ) :=
  tracks.foldl (fun m t => assocAppend m t.id (track_edges t)) []

/-- First-match association lookup (`HashMap::get`; keys are unique by
construction). -/
def adjLookup (adj : List (ℕ × List ℕ)) (n : ℕ) : Option (List ℕ) :=
  (adj.find? (fun kv => kv.1 = n)).map (fun kv => kv.2)

/-- Key set of an adjacency list; used as the termination measure universe of
the depth-first search. -/
def adjKeys (adj : List (ℕ × List ℕ)) : Finset ℕ :=
  (adj.map Prod.fst).toFinset

theorem adjLookup_mem_keys {adj : List (ℕ × List ℕ)} {n : ℕ} {ns : List ℕ}
    (h : adjLookup adj n = some ns) : n ∈ adjKeys adj := by
  unfold adjLookup at h
  rcases hf : adj.find? (fun kv => kv.1 = n) with _ | kv
  · rw [hf] at h; simp at h
  · have hp := List.find?_some hf
    have hmem := List.mem_of_find?_eq_some hf
    have : kv.1 = n := by simpa using hp
    unfold adjKeys
    rw [List.mem_toFinset, List.mem_map]
    exact ⟨kv, hmem, this⟩

mutual

/-- Embeds `detect_cycle(node, adjacency, visiting, visited)`.  The Rust
function mutates the two hash sets; on a `false` return the `visiting` set is
restored exactly (each call removes precisely the node it inserted), so
`visiting` is passed down and not returned, while `visited` only grows and is
threaded through.  A `true` return aborts the whole validation, so the set
state after it is never observed. -/
def detect_cycle (adj : List (ℕ × List ℕ)) (node : ℕ)
    (visiting visited : Finset ℕ) : Bool × Finset ℕ :=
  if node ∈ visited then (false, visited)
  else if node ∈ visiting then (true, visited)
  else
    match h : adjLookup adj node with
    | none => (false, insert node visited)
    | some ns =>
      let r := detect_cycle_list adj ns (insert node visiting) visited
      if r.1 then (true, r.2) else (false, insert node r.2)
termination_by ((adjKeys adj \ visiting).card, 0)
decreasing_by
  apply Prod.Lex.left
  have hkey : node ∈ adjKeys adj := adjLookup_mem_keys h
  apply Finset.card_lt_card
  constructor
  · intro x hx
    rw [Finset.mem_sdiff] at hx ⊢
    exact ⟨hx.1, fun hm => hx.2 (Finset.mem_insert_of_mem hm)⟩
  · intro hsub
    have hmem : node ∈ adjKeys adj \ insert node visiting := by
      apply hsub
      rw [Finset.mem_sdiff]
      exact ⟨hkey, by assumption⟩
    rw [Finset.mem_sdiff] at hmem
    exact hmem.2 (Finset.mem_insert_self _ _)

/-- The neighbor loop of `detect_cycle`, short-circuiting on the first
detected cycle. -/
def detect_cycle_list (adj : List (ℕ × List ℕ)) (ns : List ℕ)
    (visiting visited : Finset ℕ) : Bool × Finset ℕ :=
  match ns with
  | [] => (false, visited)
  | n :: rest =>
    let r := detect_cycle adj n visiting visited
    if r.1 then (true, r.2) else detect_cycle_list adj rest visiting r.2
termination_by ((adjKeys adj \ visiting).card, ns.length + 1)
decreasing_by
  · apply Prod.Lex.right
    omega
  · apply Prod.Lex.right
    simp only [List.length_cons]
    omega

end

/-- The root loop of `validate_routing_graph`: one DFS per track id, threading
the `visited` set (the shared `visiting` set is empty again at each root call,
see `detect_cycle`). -/
def detect_cycle_roots (adj : List (ℕ × List ℕ)) :
    List ℕ → Finset ℕ → Bool × Finset ℕ
  | [], visited => (false, visited)
  | id :: rest, visited =>
    let r := detect_cycle adj id ∅ visited
    if r.1 then (true, r.2) else detect_cycle_roots adj rest r.2

/-- Embeds `validate_routing_graph(tracks)`. -/
def validate_routing_graph (tracks : List Track) : Except EngineError Unit :=
  match validate_routing_targets tracks tracks with
  | .error e => .error e
  | .ok _ =>
    if (detect_cycle_roots (adjacencyOf tracks) (tracks.map (fun t => t.id)) ∅).1 then
      .error .RoutingCycleDetected
    else .ok ()

/-- The edge relation of an adjacency list. -/
def AdjEdge (adj : List (ℕ × List ℕ)) (a b : ℕ) : Prop :=
  ∃ ns, adjLookup adj a = some ns ∧ b ∈ ns

/-- The edge relation of the routing graph checked by
`validate_routing_graph`: output-bus links and enabled sends. -/
def RouteEdge (tracks : List Track) (a b : ℕ) : Prop :=
  AdjEdge (adjacencyOf tracks) a b

/-- A cycle in the routing graph: a nonempty edge path from some node back to
itself. -/
def HasRoutingCycle (tracks : List Track) : Prop :=
  ∃ a, Relation.TransGen (RouteEdge tracks) a a

/-- Model of `TrackMixPatch`. -/
structure TrackMixPatch where
  gain_db : Option ℚ
  pan : Option ℚ
  output_bus : Option (Option ℕ)
  deriving DecidableEq

/-- The field updates `patch_track_mix` performs on the found track. -/
def apply_mix_patch (t : Track) (patch : TrackMixPatch) : Track :=
  let t1 :=
    match patch.gain_db with
    | some g => { t with gain_db := qclamp g (-96) 12 }
    | none => t
  let t2 :=
    match patch.pan with
    | some p => { t1 with pan := qclamp p (-1) 1 }
    | none => t1
  match patch.output_bus with
  | some ob => { t2 with output_bus := ob }
  | none => t2

/-- Apply `f` to the first track whose id is `tid`
(`iter_mut().find(...)` followed by field writes). -/
def update_first (tracks : List Track) (tid : ℕ) (f : Track → Track) : List Track :=
  match tracks with
  | [] => []
  | t :: rest => if t.id = tid then f t :: rest else t :: update_first rest tid f

/-- Embeds `Engine::patch_track_mix`.  The result pairs the committed track
list (the engine state after the call: unchanged on every pre-commit error)
with the `Result` value returned to the caller. -/
def patch_track_mix (tracks : List Track) (track_id : ℕ) (patch : TrackMixPatch) :
    List Track × Except EngineError Track :=
  match
    (match patch.output_bus with
     | some (some target) => validate_bus_target tracks track_id target
     | _ => .ok ()) with
  | .error e => (tracks, .error e)
  | .ok _ =>
    match tracks.find? (fun t => t.id = track_id) with
    | none => (tracks, .error (.TrackNotFound track_id))
    | some _ =>
      let candidate := update_first tracks track_id (fun t => apply_mix_patch t patch)
      match validate_routing_graph candidate with
      | .error e => (tracks, .error e)
      | .ok _ =>
        match candidate.find? (fun t => t.id = track_id) with
        | none => (candidate, .error (.TrackNotFound track_id))
        | some updated => (candidate, .ok updated)

/-- Embeds `sanitize_track_send`; `Uuid::new_v4()` for a nil send id is
modelled by the explicit `fresh_id` parameter. -/
def sanitize_track_send (send : TrackSend) (fresh_id : ℕ) : TrackSend :=
  let send := if send.id = 0 then { send with id := fresh_id } else send
  { send with
    level_db := qclamp send.level_db (-96) 12
    pan := qclamp send.pan (-1) 1 }

/-- Replace the first element with the given send id. -/
def replace_first_send (sends : List TrackSend) (send : TrackSend) : List TrackSend :=
  match sends with
  | [] => []
  | s :: rest =>
    if s.id = send.id then send :: rest else s :: replace_first_send rest send

/-- Replace the first send with the given id (`iter_mut().find`), or push the
new send. -/
def upsert_send_in_track (t : Track) (send : TrackSend) : Track :=
  if (t.sends.find? (fun s => s.id = send.id)).isSome then
    { t with sends := replace_first_send t.sends send }
  else { t with sends := t.sends ++ [send] }

/-- Embeds `Engine::upsert_track_send`, shaped like `patch_track_mix`. -/
def upsert_track_send (tracks : List Track) (track_id : ℕ) (send : TrackSend)
    (fresh_id : ℕ) : List Track × Except EngineError Track :=
  let send := sanitize_track_send send fresh_id
  match validate_bus_target tracks track_id send.target_bus with
  | .error e => (tracks, .error e)
  | .ok _ =>
    match tracks.find? (fun t => t.id = track_id) with
    | none => (tracks, .error (.TrackNotFound track_id))
    | some _ =>
      let candidate := update_first tracks track_id (fun t => upsert_send_in_track t send)
      match validate_routing_graph candidate with
      | .error e => (tracks, .error e)
      | .ok _ =>
        match candidate.find? (fun t => t.id = track_id) with
        | none => (candidate, .error (.TrackNotFound track_id))
        | some updated => (candidate, .ok updated)

/-! ## Rendering (src/crates/voltlane-core/src/export.rs)

The float library is abstracted: `FloatOps` packages the transcendental
functions (and the TAU constant) used by the renderer as arbitrary rational
functions, so the theorems hold for every instantiation. -/

structure FloatOps where
  pow10 : ℚ → ℚ
  log10 : ℚ → ℚ
  exp : ℚ → ℚ
  tanh : ℚ → ℚ
  pow2 : ℚ → ℚ
  tau : ℚ

/-- f32::EPSILON. -/
def f32Eps : ℚ := 1 / 2 ^ 23

/-- One past u32::MAX; wrapping u32 arithmetic is reduction mod this. -/
def u32Mod : ℕ := 2 ^ 32

/-- u32::MAX as used in the oscillator phase scaling. -/
def u32Max : ℕ := 2 ^ 32 - 1

/-- Embeds `db_to_gain(gain_db) = 10^(gain_db/20)`. -/
def db_to_gain (F : FloatOps) (gain_db : ℚ) : ℚ := F.pow10 (gain_db / 20)

/-- Embeds `linear_to_db(value) = 20 * log10(max(value, 1e-6))`. -/
def linear_to_db (F : FloatOps) (value : ℚ) : ℚ :=
  20 * F.log10 (max value (1 / 1000000))

/-- Embeds `pan_to_mono_gain(pan) = 1 - clamp(|pan|, 0, 1) * 0.2`. -/
def pan_to_mono_gain (pan : ℚ) : ℚ := 1 - qclamp |pan| 0 1 * (2 / 10)

/-- Embeds `one_pole_alpha(cutoff_hz, sample_rate)`. -/
def one_pole_alpha (F : FloatOps) (cutoff_hz : ℚ) (sample_rate : ℕ) : ℚ :=
  let cutoff := max cutoff_hz 10
  let dt := 1 / (max sample_rate 1 : ℚ)
  let rc := 1 / (F.tau * cutoff)
  qclamp (dt / (rc + dt)) 0 1

/-- Embeds `exp_smoothing_coeff(time_seconds, sample_rate)`. -/
def exp_smoothing_coeff (F : FloatOps) (time_seconds : ℚ) (sample_rate : ℕ) : ℚ :=
  let tau1 := max time_seconds (1 / 10000)
  qclamp (F.exp (-1 / (tau1 * (max sample_rate 1 : ℚ)))) 0 1

/-- Embeds `effect_param(effect, key, default)`. -/
def effect_param (effect : EffectSpec) (key : String) (default : ℚ) : ℚ :=
  match effect.params.find? (fun kv => kv.1 = key) with
  | some kv => kv.2
  | none => default

/-- One in-place pass over a buffer carrying filter state: the common shape of
every effect loop. -/
def map_with_state {σ : Type} (f : σ → ℚ → σ × ℚ) : σ → List ℚ → List ℚ
  | _, [] => []
  | s, x :: rest =>
    let r := f s x
    r.2 :: map_with_state f r.1 rest

/-- Embeds `apply_eq`. -/
def apply_eq (F : FloatOps) (effect : EffectSpec) (buffer : List ℚ)
    (sample_rate : ℕ) : List ℚ :=
  let low_gain := db_to_gain F (effect_param effect ("low_gain_db") 0)
  let mid_gain := db_to_gain F (effect_param effect ("mid_gain_db") 0)
  let high_gain := db_to_gain F (effect_param effect ("high_gain_db") 0)
  let low_freq := qclamp (effect_param effect ("low_freq_hz") 120) 20 2000
  let high_freq := qclamp (effect_param effect ("high_freq_hz") 8000) 400 20000
  let low_alpha := one_pole_alpha F low_freq sample_rate
  let high_alpha := one_pole_alpha F high_freq sample_rate
  map_with_state
    (fun (st : ℚ × ℚ) x =>
      let low_state := st.1 + low_alpha * (x - st.1)
      let high_lp_state := st.2 + high_alpha * (x - st.2)
      let low := low_state
      let high := x - high_lp_state
      let mid := x - low - high
      ((low_state, high_lp_state), low * low_gain + mid * mid_gain + high * high_gain))
    (0, 0) buffer

/-- Embeds `apply_compressor`. -/
def apply_compressor (F : FloatOps) (effect : EffectSpec) (buffer : List ℚ)
    (sample_rate : ℕ) : List ℚ :=
  let threshold_db := qclamp (effect_param effect ("threshold_db") (-18)) (-60) 0
  let ratio := qclamp (effect_param effect ("ratio") 4) 1 24
  let attack_ms := qclamp (effect_param effect ("attack_ms") 10) (1 / 10) 250
  let release_ms := qclamp (effect_param effect ("release_ms") 120) 1 1500
  let makeup_gain := db_to_gain F (qclamp (effect_param effect ("makeup_db") 0) (-24) 24)
  let attack_coeff := exp_smoothing_coeff F (attack_ms / 1000) sample_rate
  let release_coeff := exp_smoothing_coeff F (release_ms / 1000) sample_rate
  map_with_state
    (fun (envelope : ℚ) x =>
      let level := max |x| (1 / 1000000)
      let envelope :=
        if envelope < level then attack_coeff * envelope + (1 - attack_coeff) * level
        else release_coeff * envelope + (1 - release_coeff) * level
      let envelope_db := linear_to_db F envelope
      let gain_reduction_db :=
        if threshold_db < envelope_db then
          threshold_db + (envelope_db - threshold_db) / ratio - envelope_db
        else 0
      (envelope, x * (db_to_gain F gain_reduction_db * makeup_gain)))
    0 buffer

/-- Embeds `apply_delay`; the delay line, write cursor and feedback filter
state travel through the scan. -/
def apply_delay (F : FloatOps) (effect : EffectSpec) (buffer : List ℚ)
    (sample_rate : ℕ) : List ℚ :=
  let mix := qclamp (effect_param effect ("mix") (25 / 100)) 0 1
  let time_ms := qclamp (effect_param effect ("time_ms") 320) 1 2000
  let feedback := qclamp (effect_param effect ("feedback") (38 / 100)) 0 (95 / 100)
  let hi_cut_hz := qclamp (effect_param effect ("hi_cut_hz") 6500) 800 20000
  let delay_samples := max (roundAway (time_ms / 1000 * (sample_rate : ℚ))).toNat 1
  let alpha := one_pole_alpha F hi_cut_hz sample_rate
  map_with_state
    (fun (st : List ℚ × ℕ × ℚ) x =>
      let line := st.1
      let cursor := st.2.1
      let delayed := line.getD cursor 0
      let filtered_feedback := st.2.2 + alpha * (delayed - st.2.2)
      let line := line.set cursor (x + filtered_feedback * feedback)
      let out := x * (1 - mix) + delayed * mix
      let cursor := if cursor + 1 < line.length then cursor + 1 else 0
      ((line, cursor, filtered_feedback), out))
    (List.replicate delay_samples 0, 0, 0) buffer

/-- Embeds `apply_reverb`; three cross-fed damped delay lines. -/
def apply_reverb (F : FloatOps) (effect : EffectSpec) (buffer : List ℚ)
    (sample_rate : ℕ) : List ℚ :=
  let mix := qclamp (effect_param effect ("mix") (18 / 100)) 0 1
  let room_size := qclamp (effect_param effect ("room_size") (62 / 100)) 0 1
  let damping := qclamp (effect_param effect ("damping") (45 / 100)) 0 (98 / 100)
  let width := qclamp (effect_param effect ("width") (85 / 100)) 0 1
  let feedback := 35 / 100 + room_size * (5 / 10)
  let base := (⌊(sample_rate : ℚ) * (15 / 1000) + (sample_rate : ℚ) * (3 / 100) * room_size⌋).toNat
  let line_len_a := max base 1
  let line_len_b := max (roundAway ((line_len_a : ℚ) * (137 / 100))).toNat 1
  let line_len_c := max (roundAway ((line_len_a : ℚ) * (191 / 100))).toNat 1
  let damping_hz := (1 - damping) * 8000 + 1000
  let alpha := one_pole_alpha F damping_hz sample_rate
  let wet_gain := 7 / 10 + 3 / 10 * width
  map_with_state
    (fun (st : (List ℚ × List ℚ × List ℚ) × (ℕ × ℕ × ℕ) × (ℚ × ℚ × ℚ)) x =>
      let line_a := st.1.1
      let line_b := st.1.2.1
      let line_c := st.1.2.2
      let cursor_a := st.2.1.1
      let cursor_b := st.2.1.2.1
      let cursor_c := st.2.1.2.2
      let tap_a := line_a.getD cursor_a 0
      let tap_b := line_b.getD cursor_b 0
      let tap_c := line_c.getD cursor_c 0
      let damp_a := st.2.2.1 + alpha * (tap_a - st.2.2.1)
      let damp_b := st.2.2.2.1 + alpha * (tap_b - st.2.2.2.1)
      let damp_c := st.2.2.2.2 + alpha * (tap_c - st.2.2.2.2)
      let line_a := line_a.set cursor_a (x + damp_c * feedback)
      let line_b := line_b.set cursor_b (x + damp_a * feedback)
      let line_c := line_c.set cursor_c (x + damp_b * feedback)
      let wet := (damp_a + damp_b + damp_c) / 3 * wet_gain
      let out := x * (1 - mix) + wet * mix
      let cursor_a := (cursor_a + 1) % line_a.length
      let cursor_b := (cursor_b + 1) % line_b.length
      let cursor_c := (cursor_c + 1) % line_c.length
      (((line_a, line_b, line_c), (cursor_a, cursor_b, cursor_c),
        (damp_a, damp_b, damp_c)), out))
    ((List.replicate line_len_a 0, List.replicate line_len_b 0,
      List.replicate line_len_c 0), (0, 0, 0), (0, 0, 0)) buffer

/-- Embeds `apply_limiter`. -/
def apply_limiter (F : FloatOps) (effect : EffectSpec) (buffer : List ℚ)
    (sample_rate : ℕ) : List ℚ :=
  let ceiling_db := qclamp (effect_param effect ("ceiling_db") (-8 / 10)) (-12) 0
  let ceiling := db_to_gain F ceiling_db
  let release_ms := qclamp (effect_param effect ("release_ms") 80) 1 500
  let release_coeff := exp_smoothing_coeff F (release_ms / 1000) sample_rate
  map_with_state
    (fun (gain : ℚ) x =>
      let amplitude := max |x| (1 / 1000000)
      let needed := if ceiling < amplitude * gain then ceiling / amplitude else 1
      let gain :=
        if needed < gain then needed
        else release_coeff * gain + (1 - release_coeff) * 1
      let out := x * gain
      (gain, qclamp out (-ceiling) ceiling))
    1 buffer

/-- Embeds `apply_bitcrusher`. -/
def apply_bitcrusher (effect : EffectSpec) (buffer : List ℚ) : List ℚ :=
  let bits := (iclamp (roundAway (effect_param effect ("bits") 8)) 2 16).toNat
  let downsample := (iclamp (roundAway (effect_param effect ("downsample") 2)) 1 32).toNat
  let levels := ((2 ^ bits : ℕ) : ℚ)
  let step := 2 / (levels - 1)
  map_with_state
    (fun (st : ℚ × ℕ) x =>
      let held :=
        if st.2 = 0 then
          ((roundAway ((qclamp x (-1) 1 + 1) / step) : ℤ) : ℚ) * step - 1
        else st.1
      let hold_counter := st.2 + 1
      let hold_counter := if downsample ≤ hold_counter then 0 else hold_counter
      ((held, hold_counter), held))
    (0, 0) buffer

/-- Embeds `apply_effect`: case-insensitive dispatch over the built-in effect
names; unknown names leave the buffer untouched. -/
def apply_effect (F : FloatOps) (effect : EffectSpec) (buffer : List ℚ)
    (sample_rate : ℕ) : List ℚ :=
  let effect_name := effect.name.trim.toLower
  if effect_name = "eq" then apply_eq F effect buffer sample_rate
  else if effect_name = "comp" ∨ effect_name = "compressor" then
    apply_compressor F effect buffer sample_rate
  else if effect_name = "reverb" then apply_reverb F effect buffer sample_rate
  else if effect_name = "delay" then apply_delay F effect buffer sample_rate
  else if effect_name = "limiter" then apply_limiter F effect buffer sample_rate
  else if effect_name = "bitcrusher" then apply_bitcrusher effect buffer
  else buffer

/-- Embeds `apply_track_effect_chain` (the processed-effect count is only
logged and is omitted). -/
def apply_track_effect_chain (F : FloatOps) (track : Track) (buffer : List ℚ)
    (sample_rate : ℕ) : List ℚ :=
  (track.effects.filter (fun e => e.enabled)).foldl
    (fun buf e => apply_effect F e buf sample_rate) buffer

inductive Waveform where
  | Triangle
  | Pulse (duty_cycle : ℚ)
  | Noise (seed : ℕ)
  deriving DecidableEq

inductive VoiceColor where
  | Clean
  | GameBoyApu
  | NesApu
  | Sn76489
  deriving DecidableEq

structure SynthEvent where
  start_sample : ℕ
  end_sample : ℕ
  amplitude : ℚ
  phase_increment : ℕ
  attack_frames : ℕ
  release_frames : ℕ
  waveform : Waveform
  color : VoiceColor

/-- Embeds `triangle_osc(phase: u32)`. -/
def triangle_osc (phase : ℕ) : ℚ :=
  let phase_unit := (phase : ℚ) / (u32Max : ℚ)
  if phase_unit < 1 / 2 then phase_unit * 4 - 1 else 3 - phase_unit * 4

/-- Embeds `pulse_osc(phase, duty_cycle)`; the threshold cast `as u32`
truncates the nonnegative product. -/
def pulse_osc (phase : ℕ) (duty_cycle : ℚ) : ℚ :=
  let threshold := (⌊qclamp duty_cycle (1 / 100) (99 / 100) * (u32Max : ℚ)⌋).toNat
  if phase < threshold then 1 else -1

/-- Embeds `lfsr_step(state: u32)`. -/
def lfsr_step (state : ℕ) : ℕ :=
  let bit := (state ^^^ (state >>> 1)) &&& 1
  (state >>> 1) ||| (bit <<< 30)

/-- Embeds `color_sample(sample, color)`. -/
def color_sample (F : FloatOps) (sample : ℚ) (color : VoiceColor) : ℚ :=
  match color with
  | .Clean => sample
  | .GameBoyApu => ((roundAway (sample * 15) : ℤ) : ℚ) / 15 * (95 / 100)
  | .NesApu => F.tanh (sample * (115 / 100))
  | .Sn76489 => ((roundAway (sample * 7) : ℤ) : ℚ) / 7

/-- Embeds `frequency_to_phase_increment(frequency_hz, sample_rate)`. -/
def frequency_to_phase_increment (frequency_hz : ℚ) (sample_rate : ℕ) : ℕ :=
  let normalized := frequency_hz / (max sample_rate 1 : ℚ)
  let increment := normalized * (u32Max : ℚ)
  (⌊qclamp increment 1 (u32Max : ℚ)⌋).toNat

/-- Embeds `note_frequency_hz(pitch) = 440 * 2^((pitch - 69)/12)`. -/
def note_frequency_hz (F : FloatOps) (pitch : ℕ) : ℚ :=
  440 * F.pow2 (((pitch : ℚ) - 69) / 12)

/-- Embeds `synth_event_for_note(note, clip_start_tick, project, waveform,
color)`. -/
def synth_event_for_note (F : FloatOps) (note : MidiNote) (clip_start_tick : ℕ)
    (p : Project) (waveform : Waveform) (color : VoiceColor) : SynthEvent :=
  let phase_increment :=
    frequency_to_phase_increment (note_frequency_hz F note.pitch) p.sample_rate
  let clip_note_start := clip_start_tick + note.start_tick
  let clip_note_end := clip_start_tick + note.end_tick
  let start_sample := ticks_to_samples clip_note_start p.bpm p.ppq p.sample_rate
  let end_sample := ticks_to_samples clip_note_end p.bpm p.ppq p.sample_rate
  let se : ℕ × ℕ :=
    if end_sample ≤ start_sample then (start_sample, start_sample + 1)
    else (start_sample, end_sample)
  { start_sample := se.1
    end_sample := se.2
    amplitude := ((min note.velocity 127 : ℕ) : ℚ) / 127 * (18 / 100)
    phase_increment := phase_increment
    attack_frames := 24
    release_frames := 72
    waveform := waveform
    color := color }

/-- The per-frame body of `render_synth_event`: produces the processed
segment, threading (phase, noise state, noise phase); `index` counts frames
from the event start and wrapping u32 adds are mod `2^32`. -/
def synth_frames (F : FloatOps) (event : SynthEvent) (total attack_frames release_frames : ℕ) :
    ℕ → ℕ × ℕ × ℕ → List ℚ → List ℚ
  | _, _, [] => []
  | index, st, x :: rest =>
    let phase := st.1
    let noise_state := st.2.1
    let noise_phase := st.2.2
    let attack_env :=
      if attack_frames = 0 then 1
      else qclamp ((index : ℚ) / (attack_frames : ℚ)) 0 1
    let remaining := total - (index + 1)
    let release_env :=
      if release_frames = 0 then 1
      else qclamp ((remaining : ℚ) / (release_frames : ℚ)) 0 1
    let envelope := attack_env * release_env
    let rawst : ℚ × ℕ × ℕ :=
      match event.waveform with
      | .Triangle => (triangle_osc phase, noise_state, noise_phase)
      | .Pulse duty_cycle => (pulse_osc phase duty_cycle, noise_state, noise_phase)
      | .Noise _ =>
        let noise_phase := (noise_phase + event.phase_increment) % u32Mod
        let ns2 : ℕ × ℕ :=
          if noise_phase &&& 0xF0000000 ≠ 0 then
            (lfsr_step noise_state, noise_phase &&& 0x0FFFFFFF)
          else (noise_state, noise_phase)
        ((if ns2.1 &&& 1 = 0 then 1 else -1), ns2)
    let colored := color_sample F rawst.1 event.color
    let y := x + colored * event.amplitude * envelope
    let phase := (phase + event.phase_increment) % u32Mod
    y :: synth_frames F event total attack_frames release_frames
      (index + 1) (phase, rawst.2) rest

/-- Embeds `render_synth_event(event, buffer)`: the `[start, end)` window of
the buffer (clamped to its length) is processed, the rest is untouched. -/
def render_synth_event (F : FloatOps) (event : SynthEvent) (buffer : List ℚ) :
    List ℚ :=
  let start := min event.start_sample buffer.length
  let stop := min event.end_sample buffer.length
  if stop ≤ start then buffer
  else
    let total := stop - start
    let attack_frames := min event.attack_frames (total - 1)
    let release_frames := min event.release_frames (total - 1)
    let noise_state :=
      match event.waveform with
      | .Noise seed => max seed 1
      | _ => 0x1ACEB00C
    buffer.take start ++
      synth_frames F event total attack_frames release_frames 0
        (0, noise_state, 0) ((buffer.drop start).take total) ++
      buffer.drop stop

/-- Embeds `sample_linear(samples, index: f64)`. -/
def sample_linear (samples : List ℚ) (index : ℚ) : ℚ :=
  if samples = [] then 0
  else
    let max_index := samples.length - 1
    let left := (iclamp ⌊index⌋ 0 (max_index : ℤ)).toNat
    let right := min (left + 1) (samples.length - 1)
    let frac := qclamp (index - (left : ℚ)) 0 1
    let left_sample := samples.getD left 0
    let right_sample := samples.getD right 0
    left_sample + (right_sample - left_sample) * frac

/-- Embeds `fade_envelope(frame_index, total_frames, fade_in_frames,
fade_out_frames)`. -/
def fade_envelope (frame_index total_frames fade_in_frames fade_out_frames : ℕ) : ℚ :=
  let gain : ℚ := 1
  let gain :=
    if 0 < fade_in_frames then
      gain * qclamp ((frame_index : ℚ) / (fade_in_frames : ℚ)) 0 1
    else gain
  if 0 < fade_out_frames then
    let frames_to_end := total_frames - (frame_index + 1)
    gain * qclamp ((frames_to_end : ℚ) / (fade_out_frames : ℚ)) 0 1
  else gain

/-- Prefix-wise in-place add: `for (dest, value) in target.iter_mut().zip(source)`
adds the source onto the front of the target and keeps the target's length. -/
def add_in_place (target source : List ℚ) : List ℚ :=
  List.zipWith (fun d v => d + v) target source ++ target.drop source.length

/-- Embeds `add_buffer_scaled_in_place`. -/
def add_scaled_in_place (target source : List ℚ) (gain : ℚ) : List ℚ :=
  List.zipWith (fun d v => d + v * gain) target source ++ target.drop source.length

/-- Embeds `scale_buffer_in_place`. -/
def scale_buffer (buffer : List ℚ) (gain : ℚ) : List ℚ :=
  buffer.map (fun s => s * gain)

/-- Model of decoded audio (`DecodedAudio`). -/
structure DecodedAudio where
  sample_rate : ℕ
  channels : ℕ
  samples : List ℚ

/-- The per-frame sample of `mix_audio_clip_samples`. -/
def audio_clip_frame (audio : AudioClip) (source_samples : List ℚ)
    (output_frames source_start source_end source_frames : ℕ)
    (fade_in_frames fade_out_frames : ℕ) (clip_gain : ℚ) (frame_index : ℕ) : ℚ :=
  let ratio : ℚ :=
    if 1 < output_frames then (frame_index : ℚ) / ((output_frames - 1 : ℕ) : ℚ) else 0
  let source_offset := ratio * ((source_frames - 1 : ℕ) : ℚ)
  let source_index :=
    if audio.reverse then ((source_end - 1 : ℕ) : ℚ) - source_offset
    else (source_start : ℚ) + source_offset
  let source_sample := sample_linear source_samples source_index
  let envelope := fade_envelope frame_index output_frames fade_in_frames fade_out_frames
  source_sample * clip_gain * envelope

/-- Embeds `mix_audio_clip_samples(project, clip_start_tick, clip_length_ticks,
audio, source_sample_rate, source_samples, buffer)`. -/
def mix_audio_clip_samples (F : FloatOps) (p : Project)
    (clip_start_tick clip_length_ticks : ℕ) (audio : AudioClip)
    (source_sample_rate : ℕ) (source_samples : List ℚ) (buffer : List ℚ) :
    List ℚ :=
  if source_sample_rate = 0 ∨ source_samples = [] ∨ buffer = [] then buffer
  else
    let start_frame := ticks_to_samples clip_start_tick p.bpm p.ppq p.sample_rate
    if buffer.length ≤ start_frame then buffer
    else
      let requested_frames :=
        ticks_to_samples (max clip_length_ticks 1) p.bpm p.ppq p.sample_rate
      let output_frames := min requested_frames (buffer.length - start_frame)
      if output_frames = 0 then buffer
      else
        let tr := audio.normalized_trim_range
        let source_start0 := (roundAway (tr.1 * (source_sample_rate : ℚ))).toNat
        let source_end0 := (roundAway (tr.2 * (source_sample_rate : ℚ))).toNat
        let source_start := min source_start0 (source_samples.length - 1)
        let source_end := min source_end0 source_samples.length
        if source_end ≤ source_start then buffer
        else
          let source_frames := max (source_end - source_start) 1
          let fade_in_frames :=
            (roundAway (max audio.fade_in_seconds 0 * (p.sample_rate : ℚ))).toNat
          let fade_out_frames :=
            (roundAway (max audio.fade_out_seconds 0 * (p.sample_rate : ℚ))).toNat
          let pan_gain := pan_to_mono_gain audio.pan
          let clip_gain := db_to_gain F audio.gain_db * pan_gain
          let values :=
            (List.range output_frames).map
              (audio_clip_frame audio source_samples output_frames source_start
                source_end source_frames fade_in_frames fade_out_frames clip_gain)
          buffer.take start_frame ++ add_in_place (buffer.drop start_frame) values

/-- Whether `needle` is a prefix of `l`. -/
def chars_start_with : List Char → List Char → Bool
  | _, [] => true
  | [], _ :: _ => false
  | c :: cs, n :: ns => c = n && chars_start_with cs ns

/-- Whether `needle` occurs contiguously in `l`. -/
def chars_contain (l needle : List Char) : Bool :=
  match l with
  | [] => needle.isEmpty
  | c :: cs => chars_start_with (c :: cs) needle || chars_contain cs needle

/-- Rust `str::contains` for the plain-substring patterns used here. -/
def str_contains (haystack needle : String) : Bool :=
  chars_contain haystack.data needle.data

/-- Rust `str::eq_ignore_ascii_case`. -/
def eq_ignore_ascii_case (a b : String) : Bool :=
  a.toLower = b.toLower

/-- Embeds `macro_lane(pattern, name)`: first enabled lane with the given
case-insensitive target and nonempty values. -/
def macro_lane (pattern : PatternClip) (name : String) : Option ChipMacroLane :=
  pattern.macros.find? (fun lane =>
    lane.enabled ∧ eq_ignore_ascii_case lane.target name ∧ lane.values ≠ [])

/-- Embeds `apply_pattern_macros(note, pattern, ppq)`.  The Rust i16
`saturating_add` followed by `clamp` collapses to a plain clamp: the
saturation bounds lie outside both clamp ranges. -/
def apply_pattern_macros (note : MidiNote) (pattern : PatternClip) (ppq : ℕ) :
    MidiNote :=
  let note1 :=
    match (macro_lane pattern ("arpeggio")).bind (fun lane =>
        macro_value_for_note lane note.start_tick pattern.lines_per_beat ppq) with
    | some offset =>
      { note with pitch := (iclamp ((note.pitch : ℤ) + offset) 0 127).toNat }
    | none => note
  match (macro_lane pattern ("env")).bind (fun lane =>
      macro_value_for_note lane note1.start_tick pattern.lines_per_beat ppq) with
  | some delta =>
    { note1 with velocity := (iclamp ((note1.velocity : ℤ) + delta) 1 127).toNat }
  | none => note1

/-- Embeds `duty_cycle_for_note(pattern, note_start_tick, ppq)`. -/
def duty_cycle_for_note (pattern : PatternClip) (note_start_tick : ℕ) (ppq : ℕ) :
    Option ℤ :=
  (macro_lane pattern ("duty")).bind (fun lane =>
    macro_value_for_note lane note_start_tick pattern.lines_per_beat ppq)

/-- Embeds `chip_backend_for_source(source_chip)`. -/
def chip_backend_for_source (source_chip : String) : ChipBackend :=
  let normalized := source_chip.trim.toLower
  if str_contains normalized ("gameboy") ∨ str_contains normalized ("gb_apu") then
    .GameBoyApu
  else if str_contains normalized ("nes") ∨ str_contains normalized ("2a03") ∨
      str_contains normalized ("vrc6") then
    .NesApu
  else if str_contains normalized ("sn76489") ∨ str_contains normalized ("psg") ∨
      str_contains normalized ("ay-3-8910") then
    .Sn76489
  else .Generic

/-- Embeds `chip_backend_color(backend)`. -/
def chip_backend_color (backend : ChipBackend) : VoiceColor :=
  match backend with
  | .GameBoyApu => .GameBoyApu
  | .NesApu => .NesApu
  | .Sn76489 => .Sn76489
  | .Generic => .Clean

/-- Embeds `chip_backend_level(backend)`. -/
def chip_backend_level (backend : ChipBackend) : ℚ :=
  match backend with
  | .GameBoyApu => 95 / 100
  | .NesApu => 9 / 10
  | .Sn76489 => 92 / 100
  | .Generic => 1

/-- Embeds `chip_waveform_for_note(pattern, backend, note, ppq, duty_cycle)`;
the noise seed uses wrapping u32 arithmetic and the truncating
`note.start_tick as u32` cast. -/
def chip_waveform_for_note (pattern : PatternClip) (backend : ChipBackend)
    (note : MidiNote) (ppq : ℕ) (duty_cycle : ℚ) : Waveform :=
  let normalized := pattern.source_chip.trim.toLower
  if str_contains normalized ("noise") ∨
      0 < (((macro_lane pattern ("noise")).bind (fun lane =>
        macro_value_for_note lane note.start_tick pattern.lines_per_beat ppq)).getD 0) then
    let seed := (0xBEEF * (note.pitch + 1) % u32Mod + note.start_tick % u32Mod) % u32Mod
    .Noise seed
  else if backend = .NesApu ∧ str_contains normalized ("triangle") then .Triangle
  else .Pulse duty_cycle

/-- Embeds `render_pattern_clip(pattern, backend, clip_start_tick, project,
buffer, stats)`. -/
def render_pattern_clip (F : FloatOps) (pattern : PatternClip)
    (backend : ChipBackend) (clip_start_tick : ℕ) (p : Project)
    (buffer : List ℚ) : List ℚ :=
  pattern.notes.foldl
    (fun buf note =>
      let macro_note := apply_pattern_macros note pattern p.ppq
      let duty_cycle :=
        match duty_cycle_for_note pattern note.start_tick p.ppq with
        | some value => chip_backend_duty_cycle backend value
        | none => chip_backend_default_duty backend
      let waveform := chip_waveform_for_note pattern backend note p.ppq duty_cycle
      let color := chip_backend_color backend
      let event := synth_event_for_note F macro_note clip_start_tick p waveform color
      let event :=
        { event with
          amplitude := event.amplitude * chip_backend_level backend
          attack_frames := 8
          release_frames := 64 }
      render_synth_event F event buf)
    buffer

/-- Association-list find by key. -/
def assocFind {α : Type} (m : List (ℕ × α)) (k : ℕ) : Option α :=
  (m.find? (fun kv => kv.1 = k)).map (fun kv => kv.2)

/-- Association-list overwrite (`HashMap::insert`, keys kept unique). -/
def assocInsert {α : Type} (m : List (ℕ × α)) (k : ℕ) (v : α) : List (ℕ × α) :=
  match m with
  | [] => [(k, v)]
  | kv :: rest =>
    if kv.1 = k then (k, v) :: rest else kv :: assocInsert rest k v

/-- Association-list removal of the first (unique) entry
(`HashMap::remove`). -/
def assocRemove {α : Type} (m : List (ℕ × α)) (k : ℕ) : List (ℕ × α) :=
  match m with
  | [] => []
  | kv :: rest => if kv.1 = k then rest else kv :: assocRemove rest k

/-- The per-clip body of `render_track_source_buffers`.  The decode
collaborator is the pure oracle `decode : path -> Option DecodedAudio`
(spec section 6); the Rust per-render-call cache of this collaborator is
semantically transparent for a fixed oracle, so `decode` is consulted
directly.  A decode error or an empty decode skips the clip. -/
def render_clip_into (F : FloatOps) (decode : String → Option DecodedAudio)
    (p : Project) (track : Track) (buf : List ℚ) (clip : Clip) : List ℚ :=
  if clip.disabled then buf
  else
    match clip.payload with
    | .Audio audio_clip =>
      match decode audio_clip.source_path with
      | none => buf
      | some decoded =>
        if decoded.samples = [] then buf
        else
          mix_audio_clip_samples F p clip.start_tick clip.length_ticks audio_clip
            decoded.sample_rate decoded.samples buf
    | .Midi midi_clip =>
      let waveform :=
        if track.kind = .Chip then Waveform.Pulse (1 / 2) else Waveform.Triangle
      let color :=
        if track.kind = .Chip then VoiceColor.Sn76489 else VoiceColor.Clean
      midi_clip.notes.foldl
        (fun b note =>
          render_synth_event F (synth_event_for_note F note clip.start_tick p waveform color) b)
        buf
    | .Pattern pattern_clip =>
      let backend := chip_backend_for_source pattern_clip.source_chip
      render_pattern_clip F pattern_clip backend clip.start_tick p buf
    | .Automation _ => buf

/-- Embeds `render_track_source_buffers(project, frame_count, stats)`:
per-track dry buffers, keyed by track id, kept only when some sample exceeds
f32::EPSILON in magnitude. -/
def render_track_source_buffers (F : FloatOps) (decode : String → Option DecodedAudio)
    (p : Project) (frame_count : ℕ) : List (ℕ × List ℚ) :=
  p.tracks.foldl
    (fun buffers track =>
      if ¬track.enabled ∨ track.mute ∨ track.hidden then buffers
      else
        let track_buffer :=
          track.clips.foldl (render_clip_into F decode p track)
            (List.replicate frame_count 0)
        if track_buffer.any (fun sample => f32Eps < |sample|) then
          assocInsert buffers track.id track_buffer
        else buffers)
    []

/-- Embeds `route_buffer(signal, target_bus, gain, pending_bus_input,
master)`; returns the updated (pending, master) pair. -/
def route_buffer (signal : List ℚ) (target_bus : Option ℕ) (gain : ℚ)
    (pending : List (ℕ × List ℚ)) (master : List ℚ) :
    List (ℕ × List ℚ) × List ℚ :=
  if signal = [] ∨ |gain| ≤ f32Eps then (pending, master)
  else
    match target_bus with
    | some bus_id =>
      let entry :=
        match assocFind pending bus_id with
        | some e => e
        | none => List.replicate signal.length 0
      (assocInsert pending bus_id (add_scaled_in_place entry signal gain), master)
    | none => (pending, add_scaled_in_place master signal gain)

/-- One step of the Kahn queue loop of `track_topological_order`: pop a node,
append it to the order, decrement its neighbors (saturating), enqueue those
that reach indegree zero.  `fuel` bounds the number of pops; every enqueue
follows either an initial zero indegree or a decrement event, so the total
number of pushes, and hence of pops, never exceeds
tracks + total adjacency edges, and the supplied fuel is never exhausted. -/
def kahn_loop (adjacency : List (ℕ × List ℕ)) :
    ℕ → List ℕ → List (ℕ × ℕ) → List ℕ → List ℕ
  | 0, _, _, order => order
  | _ + 1, [], _, order => order
  | fuel + 1, node :: queue, indegree, order =>
    let step :=
      ((adjLookup adjacency node).getD []).foldl
        (fun (st : List (ℕ × ℕ) × List ℕ) neighbor =>
          match assocFind st.1 neighbor with
          | none => st
          | some value =>
            let value := value - 1
            let indegree := assocInsert st.1 neighbor value
            if value = 0 then (indegree, st.2 ++ [neighbor]) else (indegree, st.2))
        (indegree, queue)
    kahn_loop adjacency fuel step.2 step.1 (order ++ [node])

/-- Embeds `track_topological_order(project)`. -/
def track_topological_order (p : Project) : List ℕ :=
  let indegree0 := p.tracks.foldl (fun m t => assocInsert m t.id 0) []
  let adjacency0 := p.tracks.foldl (fun m t => assocAppend m t.id []) []
  let st :=
    p.tracks.foldl
      (fun (st : List (ℕ × ℕ) × List (ℕ × List ℕ)) track =>
        let st :=
          match track.output_bus with
          | some target =>
            if (assocFind st.1 target).isSome then
              (match assocFind st.1 target with
               | some v => assocInsert st.1 target (v + 1)
               | none => st.1,
               assocAppend st.2 track.id [target])
            else st
          | none => st
        (track.sends.filter (fun s => s.enabled)).foldl
          (fun (st : List (ℕ × ℕ) × List (ℕ × List ℕ)) send =>
            if (assocFind st.1 send.target_bus).isSome then
              (match assocFind st.1 send.target_bus with
               | some v => assocInsert st.1 send.target_bus (v + 1)
               | none => st.1,
               assocAppend st.2 track.id [send.target_bus])
            else st)
          st)
      (indegree0, adjacency0)
  let indegree := st.1
  let adjacency := st.2
  let queue :=
    (p.tracks.filter (fun t => (assocFind indegree t.id).getD 0 = 0)).map (fun t => t.id)
  let total_edges := (adjacency.map (fun kv => kv.2.length)).foldl (fun a b => a + b) 0
  let order := kahn_loop adjacency (p.tracks.length + total_edges + 1) queue indegree []
  if order.length ≠ p.tracks.length then
    order ++ ((p.tracks.filter (fun t => ¬order.contains t.id)).map (fun t => t.id))
  else order

/-- The per-track body of the mixing loop of `render_project_samples`:
build the working buffer (dry source plus pending bus input), run the effect
chain, apply the fader, route to the output bus or master, then route each
enabled send. -/
def mix_track (F : FloatOps) (p : Project) (track_sources : List (ℕ × List ℚ))
    (frame_count : ℕ) (st : List (ℕ × List ℚ) × List ℚ) (track_id : ℕ) :
    List (ℕ × List ℚ) × List ℚ :=
  match p.tracks.find? (fun t => t.id = track_id) with
  | none => st
  | some track =>
    if ¬track.enabled ∨ track.mute ∨ track.hidden then st
    else
      let working := List.replicate frame_count (0 : ℚ)
      let working :=
        match assocFind track_sources track.id with
        | some source => add_in_place working source
        | none => working
      let incoming := assocFind st.1 track.id
      let pending :=
        match incoming with
        | some _ => assocRemove st.1 track.id
        | none => st.1
      let working :=
        match incoming with
        | some buf => add_in_place working buf
        | none => working
      let working := apply_track_effect_chain F track working p.sample_rate
      let track_gain := db_to_gain F track.gain_db * pan_to_mono_gain track.pan
      let post_fader := scale_buffer working track_gain
      let routed := route_buffer post_fader track.output_bus 1 pending st.2
      (track.sends.filter (fun s => s.enabled)).foldl
        (fun (st : List (ℕ × List ℚ) × List ℚ) send =>
          let send_source := if send.pre_fader then working else post_fader
          let send_gain := db_to_gain F send.level_db * pan_to_mono_gain send.pan
          route_buffer send_source (some send.target_bus) send_gain st.1 st.2)
        routed

/-- The sample rate actually used by `render_project_samples`
(`project.sample_rate.max(8_000)`). -/
def effective_sample_rate (p : Project) : ℕ := max p.sample_rate 8000

/-- The frame count allocated by `render_project_samples`: samples for the
latest clip end tick plus the tail, floored at one second
(`usize::try_from` cannot fail on a 64-bit host and the u64 saturating add
cannot saturate for representable projects). -/
def render_frame_count (p : Project) (tail_seconds : ℚ) : ℕ :=
  let sample_rate := effective_sample_rate p
  let end_samples := ticks_to_samples p.max_tick p.bpm p.ppq sample_rate
  let tail_samples := (roundAway (max tail_seconds 0 * (sample_rate : ℚ))).toNat
  max (end_samples + tail_samples) sample_rate

/-- The mixing phase of `render_project_samples`, before the unrouted-bus
fallback and the final clamp: returns the master buffer and the leftover
`pending_bus_input` entries (in insertion order). -/
def render_core (F : FloatOps) (decode : String → Option DecodedAudio)
    (p : Project) (tail_seconds : ℚ) : List ℚ × List (ℕ × List ℚ) :=
  let frame_count := render_frame_count p tail_seconds
  let track_sources := render_track_source_buffers F decode p frame_count
  let track_order := track_topological_order p
  let st :=
    track_order.foldl (mix_track F p track_sources frame_count)
      (([] : List (ℕ × List ℚ)), List.replicate frame_count (0 : ℚ))
  (st.2, st.1)

/-- The tail of `render_project_samples` after the mixing loop: fold the
leftover bus signals into the master (the iteration order of the Rust
`HashMap` is captured by the explicit `leftovers` list) and hard-clamp every
frame to [-1, 1]. -/
def finish_render (master : List ℚ) (leftovers : List (ℕ × List ℚ)) : List ℚ :=
  (leftovers.foldl (fun m kv => add_scaled_in_place m kv.2 1) master).map
    (fun frame => qclamp frame (-1) 1)

/-- Embeds `render_project_samples(project, tail_seconds)`, folding the
leftover bus signals in the given iteration order (any permutation of the
leftover entries is a possible `HashMap` iteration order; see
`finish_render`). -/
def render_project_samples_order (F : FloatOps)
    (decode : String → Option DecodedAudio) (p : Project) (tail_seconds : ℚ)
    (leftovers : List (ℕ × List ℚ)) : List ℚ :=
  finish_render (render_core F decode p tail_seconds).1 leftovers

/-- Embeds `render_project_samples(project, tail_seconds)` with the leftover
bus signals folded in insertion order. -/
def render_project_samples (F : FloatOps) (decode : String → Option DecodedAudio)
    (p : Project) (tail_seconds : ℚ) : List ℚ :=
  render_project_samples_order F decode p tail_seconds
    (render_core F decode p tail_seconds).2

/-! ## Basic lemmas -/

theorem roundAway_natCast (n : ℕ) : roundAway (n : ℚ) = (n : ℤ) := by
  unfold roundAway
  rw [if_pos (by positivity), Int.floor_eq_iff]
  constructor
  · push_cast
    linarith
  · push_cast
    linarith

theorem qclamp_of_mem {x lo hi : ℚ} (h1 : lo ≤ x) (h2 : x ≤ hi) :
    qclamp x lo hi = x := by
  unfold qclamp
  rw [min_eq_left h2, max_eq_right h1]

theorem qclamp_mem {x lo hi : ℚ} (h : lo ≤ hi) :
    lo ≤ qclamp x lo hi ∧ qclamp x lo hi ≤ hi := by
  unfold qclamp
  constructor
  · exact le_max_left _ _
  · rw [max_le_iff]
    exact ⟨h, min_le_right _ _⟩

/-! ## Time mapper theorems -/

/-- C4: for every bpm > 0 and ppq > 0 (which covers all representative
pairs), converting any integral tick value to seconds and back is the
identity. -/
theorem seconds_to_ticks_round_trip (t : ℕ) (bpm : ℚ) (ppq : ℕ)
    (hb : 0 < bpm) (hp : ppq ≠ 0) :
    seconds_to_ticks (ticks_to_seconds t bpm ppq) bpm ppq = t := by
  unfold ticks_to_seconds seconds_to_ticks
  have hcond : ¬(bpm ≤ 0 ∨ ppq = 0) := by
    push_neg
    exact ⟨hb, hp⟩
  rw [if_neg hcond]
  by_cases ht : t = 0
  · subst ht
    simp
  · have htq : 0 < (t : ℚ) := by
      exact_mod_cast Nat.pos_of_ne_zero ht
    have hpq : 0 < (ppq : ℚ) := by
      exact_mod_cast Nat.pos_of_ne_zero hp
    have hs : 0 < (t : ℚ) / (ppq : ℚ) * (60 / bpm) := by positivity
    rw [if_neg (by push_neg; exact ⟨hs, hb, hp⟩)]
    have harg : (t : ℚ) / (ppq : ℚ) * (60 / bpm) * (bpm / 60) * (ppq : ℚ) = (t : ℚ) := by
      field_simp
      ring
    rw [harg, roundAway_natCast, Int.toNat_natCast]

/-- Witness for C4 at the bpm/ppq/tick triple of the Rust unit test. -/
theorem seconds_to_ticks_round_trip_witness :
    (0 : ℚ) < 128 ∧ (480 : ℕ) ≠ 0 ∧
      seconds_to_ticks (ticks_to_seconds 9876 128 480) 128 480 = 9876 :=
  ⟨by norm_num, by norm_num,
    seconds_to_ticks_round_trip 9876 128 480 (by norm_num) (by norm_num)⟩

/-- C10: a non-positive seconds input (and likewise bpm ≤ 0 or ppq = 0)
yields tick count 0; in particular negative times are never converted to a
positive tick count and no error arises (the function is total). -/
theorem seconds_to_ticks_nonpositive (seconds bpm : ℚ) (ppq : ℕ)
    (h : seconds ≤ 0 ∨ bpm ≤ 0 ∨ ppq = 0) :
    seconds_to_ticks seconds bpm ppq = 0 := by
  unfold seconds_to_ticks
  rw [if_pos h]

/-- Witness for C10 at a negative time value. -/
theorem seconds_to_ticks_nonpositive_witness :
    ((-5 : ℚ) ≤ 0 ∨ (120 : ℚ) ≤ 0 ∨ (480 : ℕ) = 0) ∧
      seconds_to_ticks (-5) 120 480 = 0 :=
  ⟨Or.inl (by norm_num),
    seconds_to_ticks_nonpositive (-5) 120 480 (Or.inl (by norm_num))⟩

/-! ## Macro lane theorems -/

/-- C7: with a nonempty value list, a valid loop region replays indices at or
below `loop_end` directly and wraps later indices cyclically inside the
region, while an undefined loop region clamps past-the-end indices to the
last value. -/
theorem macro_value_at_step_spec (lane : ChipMacroLane) (step : ℕ)
    (hne : lane.values ≠ []) :
    (∀ ls le, lane.loop_start = some ls → lane.loop_end = some le →
      ls ≤ le → le < lane.values.length →
      (step ≤ le → macro_value_at_step lane step = lane.values.getD step 0) ∧
      (le < step → macro_value_at_step lane step =
        lane.values.getD (ls + (step - ls) % (le - ls + 1)) 0)) ∧
    ((lane.loop_start = none ∨ lane.loop_end = none) →
      lane.values.length ≤ step →
      macro_value_at_step lane step = lane.values.getD (lane.values.length - 1) 0) := by
  have hlen : 0 < lane.values.length := List.length_pos.mpr hne
  constructor
  · intro ls le hls hle h1 h2
    unfold macro_value_at_step
    rw [if_neg hne, hls, hle]
    simp only
    rw [if_pos ⟨h1, h2⟩]
    constructor
    · intro hstep
      rw [if_pos hstep]
      congr 1
      omega
    · intro hstep
      rw [if_neg (by omega)]
      congr 1
      have hmod : (step - ls) % (le - ls + 1) < le - ls + 1 := Nat.mod_lt _ (by omega)
      omega
  · intro hnone hstep
    unfold macro_value_at_step
    rw [if_neg hne]
    have hmin : min step (lane.values.length - 1) = lane.values.length - 1 := by omega
    rcases hnone with h | h
    · rw [h]
      cases hle2 : lane.loop_end <;> simp only <;> rw [hmin]
    · rw [h]
      cases hls2 : lane.loop_start <;> simp only <;> rw [hmin]

/-- A looping duty lane used by the C7 witness. -/
def lane_c7_loop : ChipMacroLane :=
  { target := "duty", enabled := true, values := [1, 2, 3, 4], loop_start := some 1, loop_end := some 2 }

/-- A loop-free duty lane used by the C7 witness. -/
def lane_c7_clamp : ChipMacroLane :=
  { target := "duty", enabled := true, values := [1, 2, 3, 4], loop_start := none, loop_end := none }

/-- Witness for C7: looping lane wraps index 5 to position 1, non-looping
lane clamps index 9 to the last value. -/
theorem macro_value_at_step_spec_witness :
    macro_value_at_step lane_c7_loop 5 = ([1, 2, 3, 4] : List ℤ).getD (1 + (5 - 1) % 2) 0 ∧
    macro_value_at_step lane_c7_clamp 9 = ([1, 2, 3, 4] : List ℤ).getD 3 0 := by
  constructor
  · exact ((macro_value_at_step_spec lane_c7_loop 5 (by decide)).1 1 2 rfl rfl (by decide)
      (by decide)).2 (by decide)
  · exact (macro_value_at_step_spec lane_c7_clamp 9 (by decide)).2 (Or.inl rfl) (by decide)

/-- The lane used to separate the code's integer ticks-per-row from the
spec's exact rational quotient. -/
def lane_c6 : ChipMacroLane :=
  { target := "arpeggio", enabled := true, values := [10, 20, 30, 40, 50],
    loop_start := none, loop_end := none }

/-- C6 counterexample: at ppq = 10, lines_per_beat = 4 and note start tick 9
the code selects row 9 / (10 / 4) = 9 / 2 = 4 (integer ticks-per-row),
while the claimed exact-quotient row is floor(9 / 2.5) = 3; the applied
values differ (50 vs 40). -/
theorem macro_row_index_counterexample :
    macro_value_for_note lane_c6 9 4 10 ≠
      some (lane_c6.values.getD (spec_row_index 9 4 10) 0) := by
  have hcode : macro_value_for_note lane_c6 9 4 10 = some 50 := by decide
  have hspec : spec_row_index 9 4 10 = 3 := by
    unfold spec_row_index
    norm_num
    try decide
  rw [hcode, hspec]
  decide

/-- C6 amended: the row index is note start tick divided (integer division)
by `max(ppq / lines_per_beat, 1)`, the integer ticks-per-row; this agrees
with the spec's exact-quotient formula exactly when lines_per_beat divides
ppq (and ppq > 0). -/
theorem macro_row_index_amended (lane : ChipMacroLane) (tick lpb ppq : ℕ)
    (hne : lane.values ≠ []) (hlpb : lpb ≠ 0) :
    macro_value_for_note lane tick lpb ppq =
      some (macro_value_at_step lane (tick / max (ppq / lpb) 1)) ∧
    (lpb ∣ ppq → ppq ≠ 0 → tick / max (ppq / lpb) 1 = spec_row_index tick lpb ppq) := by
  constructor
  · unfold macro_value_for_note
    rw [if_neg (by push_neg; exact ⟨hne, hlpb⟩)]
  · intro hdvd hppq
    obtain ⟨k, hk⟩ := hdvd
    have hlpb0 : 0 < lpb := Nat.pos_of_ne_zero hlpb
    have hq : ppq / lpb = k := by
      rw [hk]
      exact Nat.mul_div_cancel_left k hlpb0
    have hk0 : 0 < k := by
      rcases Nat.eq_zero_or_pos k with h | h
      · exfalso
        exact hppq (by rw [hk, h, Nat.mul_zero])
      · exact h
    have hmax : max (ppq / lpb) 1 = k := by
      rw [hq]
      omega
    rw [hmax]
    unfold spec_row_index
    have hcast : (ppq : ℚ) / (lpb : ℚ) = (k : ℚ) := by
      rw [hk]
      push_cast
      field_simp
    rw [hcast]
    have hkq : 0 < (k : ℚ) := by exact_mod_cast hk0
    have hfloor : ⌊(tick : ℚ) / (k : ℚ)⌋ = ((tick / k : ℕ) : ℤ) := by
      rw [Int.floor_eq_iff]
      constructor
      · rw [Int.cast_natCast, le_div_iff hkq]
        exact_mod_cast Nat.div_mul_le_self tick k
      · rw [Int.cast_natCast, div_lt_iff hkq]
        have hlt : tick < (tick / k + 1) * k := by
          have hmod := Nat.div_add_mod tick k
          have hmodlt := Nat.mod_lt tick hk0
          calc tick = k * (tick / k) + tick % k := hmod.symm
            _ < k * (tick / k) + k := Nat.add_lt_add_left hmodlt _
            _ = (tick / k + 1) * k := by ring
        exact_mod_cast hlt
    rw [hfloor, Int.toNat_natCast]

/-- Witness for C6's amended theorem at a dividing pair (ppq 480,
lines-per-beat 4, tick 965: row 8 both ways). -/
theorem macro_row_index_amended_witness :
    lane_c6.values ≠ [] ∧ (4 : ℕ) ≠ 0 ∧
      (macro_value_for_note lane_c6 965 4 480 =
        some (macro_value_at_step lane_c6 (965 / max (480 / 4) 1)) ∧
      ((4 : ℕ) ∣ 480 → (480 : ℕ) ≠ 0 →
        965 / max (480 / 4 : ℕ) 1 = spec_row_index 965 4 480)) :=
  ⟨by decide, by decide, macro_row_index_amended lane_c6 965 4 480 (by decide) (by decide)⟩

/-! ## Chip duty-cycle theorems -/

/-- C8 counterexample: on the SN76489 backend the macro value -127 maps to
0.1, not to the claimed 0.05 (and 127 maps to 0.9, not 0.95). -/
theorem chip_backend_duty_cycle_counterexample :
    chip_backend_duty_cycle ChipBackend.Sn76489 (-127) = 1 / 10 ∧
      (1 : ℚ) / 10 ≠ 5 / 100 ∧
      chip_backend_duty_cycle ChipBackend.Sn76489 127 = 9 / 10 ∧
      (9 : ℚ) / 10 ≠ 95 / 100 := by
  refine ⟨?_, by norm_num, ?_, by norm_num⟩ <;>
    · unfold chip_backend_duty_cycle iclamp qclamp
      norm_num

/-- C8 amended: GameBoy/NES backends map a macro value in 0-3 exactly to the
corresponding element of {0.125, 0.25, 0.5, 0.75}; SN76489/Generic backends
map -127..127 linearly onto 0.1-0.9 via 0.1 + ((v + 127)/254) * 0.8 (the
clamp to [0.05, 0.95] never binds), so -127 yields 0.1 and 127 yields 0.9. -/
theorem chip_backend_duty_cycle_amended (v : ℤ) :
    (0 ≤ v → v ≤ 3 →
      chip_backend_duty_cycle ChipBackend.GameBoyApu v =
        [(1 : ℚ) / 8, 1 / 4, 1 / 2, 3 / 4].getD v.toNat 0 ∧
      chip_backend_duty_cycle ChipBackend.NesApu v =
        [(1 : ℚ) / 8, 1 / 4, 1 / 2, 3 / 4].getD v.toNat 0) ∧
    (-127 ≤ v → v ≤ 127 →
      chip_backend_duty_cycle ChipBackend.Sn76489 v =
        1 / 10 + ((v : ℚ) + 127) / 254 * (8 / 10) ∧
      chip_backend_duty_cycle ChipBackend.Generic v =
        1 / 10 + ((v : ℚ) + 127) / 254 * (8 / 10) ∧
      1 / 10 ≤ chip_backend_duty_cycle ChipBackend.Sn76489 v ∧
      chip_backend_duty_cycle ChipBackend.Sn76489 v ≤ 9 / 10) := by
  constructor
  · intro h0 h3
    have hcl : iclamp v (-127) 127 = v := by
      unfold iclamp
      omega
    have hcl2 : iclamp v 0 3 = v := by
      unfold iclamp
      omega
    unfold chip_backend_duty_cycle
    simp only [hcl, hcl2]
    interval_cases v <;> simp <;> norm_num
  · intro hlo hhi
    have hcl : iclamp v (-127) 127 = v := by
      unfold iclamp
      omega
    have hvq1 : (-127 : ℚ) ≤ (v : ℚ) := by exact_mod_cast hlo
    have hvq2 : (v : ℚ) ≤ 127 := by exact_mod_cast hhi
    have hval : qclamp (1 / 10 + ((v : ℚ) + 127) / 254 * (8 / 10)) (5 / 100) (95 / 100) =
        1 / 10 + ((v : ℚ) + 127) / 254 * (8 / 10) := by
      apply qclamp_of_mem <;> nlinarith
    unfold chip_backend_duty_cycle
    simp only [hcl]
    refine ⟨hval, hval, ?_, ?_⟩ <;> rw [hval] <;> nlinarith

/-- Witness for C8's amended theorem at value 2 (inside both ranges). -/
theorem chip_backend_duty_cycle_amended_witness :
    ((0 : ℤ) ≤ 2 ∧ (2 : ℤ) ≤ 3 ∧ (-127 : ℤ) ≤ 2 ∧ (2 : ℤ) ≤ 127) ∧
      chip_backend_duty_cycle ChipBackend.GameBoyApu 2 =
        [(1 : ℚ) / 8, 1 / 4, 1 / 2, 3 / 4].getD (2 : ℤ).toNat 0 ∧
      chip_backend_duty_cycle ChipBackend.Sn76489 2 =
        1 / 10 + ((2 : ℤ) + 127 : ℚ) / 254 * (8 / 10) := by
  have h := chip_backend_duty_cycle_amended 2
  exact ⟨⟨by norm_num, by norm_num, by norm_num, by norm_num⟩,
    (h.1 (by norm_num) (by norm_num)).1,
    by
      have := (h.2 (by norm_num) (by norm_num)).1
      push_cast at this ⊢
      exact this⟩

/-! ## Waveform peak theorems -/

theorem chunksOf_length (b : ℕ) (hb : 0 < b) (l : List ℚ) :
    (chunksOf b l).length = (l.length + b - 1) / b := by
  generalize hn : l.length = n
  induction n using Nat.strong_induction_on generalizing l with
  | _ n ih =>
    by_cases hl : l = []
    · subst hl
      rw [chunksOf, dif_pos (Or.inr rfl)]
      simp only [List.length_nil] at hn ⊢
      rw [← hn]
      exact (Nat.div_eq_of_lt (by omega)).symm
    · rw [chunksOf, dif_neg (by push_neg; exact ⟨by omega, hl⟩)]
      simp only [List.length_cons]
      have hlen0 : 0 < l.length := List.length_pos.mpr hl
      have hdl : (l.drop b).length = l.length - b := List.length_drop _ _
      rw [ih (l.drop b).length (by omega) (l.drop b) rfl, hdl, ← hn]
      rcases le_or_lt l.length b with hle | hlt
      · have h0 : l.length - b = 0 := by omega
        rw [h0]
        have h1 : (0 + b - 1) / b = 0 := Nat.div_eq_of_lt (by omega)
        have h2 : (l.length + b - 1) / b = 1 :=
          Nat.div_eq_of_lt_le (by omega) (by omega)
        omega
      · have h3 : l.length + b - 1 = (l.length - b + b - 1) + b := by omega
        rw [h3, Nat.add_div_right _ hb]

theorem chunksOf_ne_nil (b : ℕ) (hb : 0 < b) (l : List ℚ) :
    ∀ c ∈ chunksOf b l, c ≠ [] := by
  generalize hn : l.length = n
  induction n using Nat.strong_induction_on generalizing l with
  | _ n ih =>
    by_cases hl : l = []
    · subst hl
      rw [chunksOf, dif_pos (Or.inr rfl)]
      intro c hc
      exact absurd hc (List.not_mem_nil c)
    · rw [chunksOf, dif_neg (by push_neg; exact ⟨by omega, hl⟩)]
      intro c hc
      rcases List.mem_cons.mp hc with hc | hc
      · subst hc
        intro htake
        rcases List.take_eq_nil_iff.mp htake with h | h
        · exact absurd h (by omega)
        · exact hl h
      · have hlen0 : 0 < l.length := List.length_pos.mpr hl
        have hdl : (l.drop b).length = l.length - b := List.length_drop _ _
        exact ih (l.drop b).length (by omega) (l.drop b) rfl c hc

theorem le_foldl_max (l : List ℚ) (a : ℚ) :
    a ≤ l.foldl max a ∧ ∀ x ∈ l, x ≤ l.foldl max a := by
  induction l generalizing a with
  | nil =>
    refine ⟨le_refl a, ?_⟩
    intro x hx
    exact absurd hx (List.not_mem_nil x)
  | cons y ys ih =>
    simp only [List.foldl_cons]
    refine ⟨le_trans (le_max_left a y) (ih (max a y)).1, ?_⟩
    intro x hx
    rcases List.mem_cons.mp hx with hx | hx
    · subst hx
      exact le_trans (le_max_right a x) (ih (max a x)).1
    · exact (ih (max a y)).2 x hx

theorem foldl_max_mem (l : List ℚ) (a : ℚ) :
    l.foldl max a = a ∨ ∃ x ∈ l, l.foldl max a = x := by
  induction l generalizing a with
  | nil => exact Or.inl rfl
  | cons y ys ih =>
    simp only [List.foldl_cons]
    rcases ih (max a y) with h | h
    · rcases max_choice a y with hm | hm
      · exact Or.inl (h.trans hm)
      · exact Or.inr ⟨y, List.mem_cons_self y ys, h.trans hm⟩
    · obtain ⟨x, hx, hfx⟩ := h
      exact Or.inr ⟨x, List.mem_cons_of_mem y hx, hfx⟩

theorem foldl_max_abs (c : List ℚ) (hc : c ≠ []) :
    (∀ x ∈ c, |x| ≤ (c.map (fun x => |x|)).foldl max 0) ∧
    ∃ x ∈ c, |x| = (c.map (fun x => |x|)).foldl max 0 := by
  set m := (c.map (fun x => |x|)).foldl max 0 with hm
  have hub : ∀ x ∈ c, |x| ≤ m := by
    intro x hx
    exact (le_foldl_max _ 0).2 |x| (List.mem_map_of_mem _ hx)
  refine ⟨hub, ?_⟩
  rcases foldl_max_mem (c.map (fun x => |x|)) 0 with h0 | hmem
  · obtain ⟨y, hy⟩ := List.exists_mem_of_ne_nil c hc
    refine ⟨y, hy, le_antisymm (hub y hy) ?_⟩
    rw [← hm] at h0
    rw [h0]
    exact abs_nonneg y
  · obtain ⟨z, hz, hfz⟩ := hmem
    obtain ⟨x, hx, hxz⟩ := List.mem_map.mp hz
    rw [← hm] at hfz
    exact ⟨x, hx, hxz.trans hfz.symm⟩

/-- C9: with bucket size b > 0 the peak list has exactly
ceil(frame_count / b) = (frame_count + b - 1) / b entries, and each entry is
the maximum absolute value of the samples in its bucket (an upper bound that
is attained). -/
theorem generate_waveform_peaks_spec (samples : List ℚ) (b : ℕ) (hb : 0 < b) :
    (generate_waveform_peaks samples b).length = (samples.length + b - 1) / b ∧
    ∀ i, ∀ h : i < (chunksOf b samples).length,
      (∀ x ∈ (chunksOf b samples).get ⟨i, h⟩,
        |x| ≤ (generate_waveform_peaks samples b).getD i 0) ∧
      ∃ x ∈ (chunksOf b samples).get ⟨i, h⟩,
        |x| = (generate_waveform_peaks samples b).getD i 0 := by
  constructor
  · unfold generate_waveform_peaks
    rw [List.length_map]
    exact chunksOf_length b hb samples
  · intro i h
    have hlen : i < (generate_waveform_peaks samples b).length := by
      unfold generate_waveform_peaks
      rw [List.length_map]
      exact h
    have hgetD : (generate_waveform_peaks samples b).getD i 0 =
        (((chunksOf b samples).get ⟨i, h⟩).map (fun x => |x|)).foldl max 0 := by
      rw [List.getD_eq_getElem _ _ hlen]
      unfold generate_waveform_peaks
      rw [List.getElem_map]
      rfl
    rw [hgetD]
    have hne : (chunksOf b samples).get ⟨i, h⟩ ≠ [] :=
      chunksOf_ne_nil b hb samples _ (List.get_mem _ _ _)
    exact foldl_max_abs _ hne

/-- Witness for C9: three samples in buckets of two give ceil(3/2) = 2 peaks
with the advertised bucket maxima. -/
theorem generate_waveform_peaks_spec_witness :
    (generate_waveform_peaks [1 / 2, -3 / 4, 1 / 4] 2).length = (3 + 2 - 1) / 2 ∧
    ∀ i, ∀ h : i < (chunksOf 2 [1 / 2, -3 / 4, 1 / 4]).length,
      (∀ x ∈ (chunksOf 2 [1 / 2, -3 / 4, 1 / 4]).get ⟨i, h⟩,
        |x| ≤ (generate_waveform_peaks [1 / 2, -3 / 4, 1 / 4] 2).getD i 0) ∧
      ∃ x ∈ (chunksOf 2 [1 / 2, -3 / 4, 1 / 4]).get ⟨i, h⟩,
        |x| = (generate_waveform_peaks [1 / 2, -3 / 4, 1 / 4] 2).getD i 0 :=
  generate_waveform_peaks_spec [1 / 2, -3 / 4, 1 / 4] 2 (by norm_num)

/-! ## Cycle-detection completeness -/

/-- A set of finished DFS nodes: closed under out-edges and containing no
node that lies on a cycle. -/
def CleanSet (adj : List (ℕ × List ℕ)) (V : Finset ℕ) : Prop :=
  (∀ a ∈ V, ∀ b, AdjEdge adj a b → b ∈ V) ∧
  (∀ a ∈ V, ¬Relation.TransGen (AdjEdge adj) a a)

theorem transGen_mem_of_closed {adj : List (ℕ × List ℕ)} {V : Finset ℕ}
    (hclosed : ∀ a ∈ V, ∀ b, AdjEdge adj a b → b ∈ V) {a b : ℕ}
    (ha : a ∈ V) (h : Relation.TransGen (AdjEdge adj) a b) : b ∈ V := by
  induction h with
  | single e => exact hclosed _ ha _ e
  | tail _ e ih => exact hclosed _ ih _ e

theorem reflTransGen_mem_of_closed {adj : List (ℕ × List ℕ)} {V : Finset ℕ}
    (hclosed : ∀ a ∈ V, ∀ b, AdjEdge adj a b → b ∈ V) {a b : ℕ}
    (ha : a ∈ V) (h : Relation.ReflTransGen (AdjEdge adj) a b) : b ∈ V := by
  induction h with
  | refl => exact ha
  | tail _ e ih => exact hclosed _ ih _ e

theorem cleanSet_empty (adj : List (ℕ × List ℕ)) : CleanSet adj ∅ := by
  constructor
  · intro a ha
    exact absurd ha (Finset.not_mem_empty a)
  · intro a ha
    exact absurd ha (Finset.not_mem_empty a)

theorem cleanSet_insert_no_edges {adj : List (ℕ × List ℕ)} {V : Finset ℕ}
    (hclean : CleanSet adj V) {node : ℕ} (hnone : adjLookup adj node = none) :
    CleanSet adj (insert node V) := by
  have hnoedge : ∀ b, ¬AdjEdge adj node b := by
    intro b ⟨ns, hns, _⟩
    rw [hnone] at hns
    cases hns
  constructor
  · intro a ha b hab
    rcases Finset.mem_insert.mp ha with ha | ha
    · subst ha
      exact absurd hab (hnoedge b)
    · exact Finset.mem_insert_of_mem (hclean.1 a ha b hab)
  · intro a ha hcyc
    rcases Finset.mem_insert.mp ha with ha | ha
    · subst ha
      obtain ⟨c, he, _⟩ := Relation.TransGen.head'_iff.mp hcyc
      exact hnoedge c he
    · exact hclean.2 a ha hcyc

theorem cleanSet_insert_finished {adj : List (ℕ × List ℕ)} {V : Finset ℕ}
    (hclean : CleanSet adj V) {node : ℕ} {ns : List ℕ}
    (hadj : adjLookup adj node = some ns) (hns : ∀ n ∈ ns, n ∈ V) :
    CleanSet adj (insert node V) := by
  have hedge : ∀ b, AdjEdge adj node b → b ∈ V := by
    intro b ⟨ns1, hns1, hb⟩
    rw [hadj] at hns1
    cases hns1
    exact hns b hb
  have hnocyc : ¬Relation.TransGen (AdjEdge adj) node node := by
    intro hcyc
    by_cases hmem : node ∈ V
    · exact hclean.2 node hmem hcyc
    · obtain ⟨c, he, hrt⟩ := Relation.TransGen.head'_iff.mp hcyc
      exact hmem (reflTransGen_mem_of_closed hclean.1 (hedge c he) hrt)
  constructor
  · intro a ha b hab
    rcases Finset.mem_insert.mp ha with ha | ha
    · subst ha
      exact Finset.mem_insert_of_mem (hedge b hab)
    · exact Finset.mem_insert_of_mem (hclean.1 a ha b hab)
  · intro a ha hcyc
    rcases Finset.mem_insert.mp ha with ha | ha
    · subst ha
      exact hnocyc hcyc
    · exact hclean.2 a ha hcyc

theorem detect_cycle_eq_of_visited {adj : List (ℕ × List ℕ)}
    {node : ℕ} {visiting visited : Finset ℕ} (h1 : node ∈ visited) :
    detect_cycle adj node visiting visited = (false, visited) := by
  rw [detect_cycle, if_pos h1]

theorem detect_cycle_eq_of_none {adj : List (ℕ × List ℕ)}
    {node : ℕ} {visiting visited : Finset ℕ} (h1 : node ∉ visited)
    (h2 : node ∉ visiting) (hadj : adjLookup adj node = none) :
    detect_cycle adj node visiting visited = (false, insert node visited) := by
  rw [detect_cycle, if_neg h1, if_neg h2]
  split
  · rfl
  · rename_i ns heq
    rw [hadj] at heq
    cases heq

theorem detect_cycle_eq_of_some {adj : List (ℕ × List ℕ)}
    {node : ℕ} {visiting visited : Finset ℕ} {ns : List ℕ} (h1 : node ∉ visited)
    (h2 : node ∉ visiting) (hadj : adjLookup adj node = some ns) :
    detect_cycle adj node visiting visited =
      (let r := detect_cycle_list adj ns (insert node visiting) visited
       if r.1 then (true, r.2) else (false, insert node r.2)) := by
  rw [detect_cycle, if_neg h1, if_neg h2]
  split
  · rename_i heq
    rw [hadj] at heq
    cases heq
  · rename_i ns1 heq
    rw [hadj] at heq
    cases heq
    rfl

theorem detect_cycle_false_spec (adj : List (ℕ × List ℕ)) (k : ℕ) :
    (∀ node visiting visited,
      (adjKeys adj \ visiting).card ≤ k →
      CleanSet adj visited →
      (detect_cycle adj node visiting visited).1 = false →
      CleanSet adj (detect_cycle adj node visiting visited).2 ∧
      visited ⊆ (detect_cycle adj node visiting visited).2 ∧
      node ∈ (detect_cycle adj node visiting visited).2) ∧
    (∀ ns visiting visited,
      (adjKeys adj \ visiting).card ≤ k →
      CleanSet adj visited →
      (detect_cycle_list adj ns visiting visited).1 = false →
      CleanSet adj (detect_cycle_list adj ns visiting visited).2 ∧
      visited ⊆ (detect_cycle_list adj ns visiting visited).2 ∧
      ∀ n ∈ ns, n ∈ (detect_cycle_list adj ns visiting visited).2) := by
  induction k using Nat.strong_induction_on with
  | _ k ih =>
    have hP : ∀ node visiting visited,
        (adjKeys adj \ visiting).card ≤ k →
        CleanSet adj visited →
        (detect_cycle adj node visiting visited).1 = false →
        CleanSet adj (detect_cycle adj node visiting visited).2 ∧
        visited ⊆ (detect_cycle adj node visiting visited).2 ∧
        node ∈ (detect_cycle adj node visiting visited).2 := by
      intro node visiting visited hcard hclean hfalse
      by_cases h1 : node ∈ visited
      · rw [detect_cycle_eq_of_visited h1]
        exact ⟨hclean, Finset.Subset.refl _, h1⟩
      · by_cases h2 : node ∈ visiting
        · rw [detect_cycle, if_neg h1, if_pos h2] at hfalse
          cases hfalse
        · rcases hadj : adjLookup adj node with _ | ns
          · rw [detect_cycle_eq_of_none h1 h2 hadj]
            exact ⟨cleanSet_insert_no_edges hclean hadj,
              Finset.subset_insert _ _, Finset.mem_insert_self _ _⟩
          · have hkey : node ∈ adjKeys adj := adjLookup_mem_keys hadj
            have hmemdiff : node ∈ adjKeys adj \ visiting :=
              Finset.mem_sdiff.mpr ⟨hkey, h2⟩
            have hlt : (adjKeys adj \ insert node visiting).card <
                (adjKeys adj \ visiting).card := by
              apply Finset.card_lt_card
              constructor
              · intro x hx
                rw [Finset.mem_sdiff] at hx ⊢
                exact ⟨hx.1, fun hm => hx.2 (Finset.mem_insert_of_mem hm)⟩
              · intro hsub
                have hmem2 := hsub hmemdiff
                rw [Finset.mem_sdiff] at hmem2
                exact hmem2.2 (Finset.mem_insert_self _ _)
            have hk1 : 1 ≤ k := by omega
            have hQ := (ih (k - 1) (by omega)).2 ns (insert node visiting) visited
              (by omega) hclean
            rw [detect_cycle_eq_of_some h1 h2 hadj] at hfalse ⊢
            simp only at hfalse ⊢
            by_cases hr : (detect_cycle_list adj ns (insert node visiting) visited).1 = true
            · rw [if_pos hr] at hfalse
              cases hfalse
            · have hrf : (detect_cycle_list adj ns (insert node visiting) visited).1 = false :=
                Bool.not_eq_true _ ▸ hr
              rw [if_neg hr] at hfalse ⊢
              obtain ⟨hcl, hsub, hmem⟩ := hQ hrf
              refine ⟨cleanSet_insert_finished hcl hadj hmem, ?_, Finset.mem_insert_self _ _⟩
              exact hsub.trans (Finset.subset_insert _ _)
    refine ⟨hP, ?_⟩
    intro ns
    induction ns with
    | nil =>
      intro visiting visited hcard hclean hfalse
      simp only [detect_cycle_list]
      exact ⟨hclean, Finset.Subset.refl _, by intro n hn; cases hn⟩
    | cons n rest ihrest =>
      intro visiting visited hcard hclean hfalse
      simp only [detect_cycle_list] at hfalse ⊢
      by_cases hr : (detect_cycle adj n visiting visited).1 = true
      · rw [if_pos hr] at hfalse
        cases hfalse
      · have hrf : (detect_cycle adj n visiting visited).1 = false :=
          Bool.not_eq_true _ ▸ hr
        rw [if_neg hr] at hfalse ⊢
        obtain ⟨hcl, hsub, hmem⟩ := hP n visiting visited hcard hclean hrf
        obtain ⟨hcl2, hsub2, hmem2⟩ := ihrest visiting
          (detect_cycle adj n visiting visited).2 hcard hcl hfalse
        refine ⟨hcl2, hsub.trans hsub2, ?_⟩
        intro m hm
        rcases List.mem_cons.mp hm with hm | hm
        · subst hm
          exact hsub2 hmem
        · exact hmem2 m hm

theorem detect_cycle_roots_false_spec (adj : List (ℕ × List ℕ)) (ids : List ℕ) :
    ∀ visited, CleanSet adj visited →
      (detect_cycle_roots adj ids visited).1 = false →
      CleanSet adj (detect_cycle_roots adj ids visited).2 ∧
      visited ⊆ (detect_cycle_roots adj ids visited).2 ∧
      ∀ id ∈ ids, id ∈ (detect_cycle_roots adj ids visited).2 := by
  induction ids with
  | nil =>
    intro visited hclean _
    exact ⟨hclean, Finset.Subset.refl _, by intro i hi; cases hi⟩
  | cons i rest ihrest =>
    intro visited hclean hfalse
    simp only [detect_cycle_roots] at hfalse ⊢
    by_cases hr : (detect_cycle adj i ∅ visited).1 = true
    · rw [if_pos hr] at hfalse
      cases hfalse
    · have hrf : (detect_cycle adj i ∅ visited).1 = false :=
        Bool.not_eq_true _ ▸ hr
      rw [if_neg hr] at hfalse ⊢
      obtain ⟨hcl, hsub, hmem⟩ := (detect_cycle_false_spec adj (adjKeys adj).card).1
        i ∅ visited (by simp) hclean hrf
      obtain ⟨hcl2, hsub2, hmem2⟩ := ihrest (detect_cycle adj i ∅ visited).2 hcl hfalse
      refine ⟨hcl2, hsub.trans hsub2, ?_⟩
      intro m hm
      rcases List.mem_cons.mp hm with hm | hm
      · subst hm
        exact hsub2 hmem
      · exact hmem2 m hm

theorem assocAppend_keys_mem {m : List (ℕ × List ℕ)} {k x : ℕ} {vs : List ℕ}
    (h : x ∈ (assocAppend m k vs).map Prod.fst) :
    x ∈ m.map Prod.fst ∨ x = k := by
  induction m with
  | nil =>
    simp only [assocAppend, List.map_cons, List.map_nil, List.mem_cons] at h
    rcases h with h | h
    · exact Or.inr h
    · cases h
  | cons kv rest ih =>
    unfold assocAppend at h
    by_cases hk : kv.1 = k
    · rw [if_pos hk] at h
      simp only [List.map_cons, List.mem_cons] at h
      rcases h with h | h
      · exact Or.inr (h.trans hk)
      · exact Or.inl (by
          simp only [List.map_cons, List.mem_cons]
          exact Or.inr h)
    · rw [if_neg hk] at h
      simp only [List.map_cons, List.mem_cons] at h
      rcases h with h | h
      · exact Or.inl (by
          simp only [List.map_cons, List.mem_cons]
          exact Or.inl h)
      · rcases ih h with h2 | h2
        · exact Or.inl (by
            simp only [List.map_cons, List.mem_cons]
            exact Or.inr h2)
        · exact Or.inr h2

theorem adjacencyOf_keys_sub (tracks : List Track) :
    ∀ x ∈ (adjacencyOf tracks).map Prod.fst, x ∈ tracks.map (fun t => t.id) := by
  unfold adjacencyOf
  suffices h : ∀ l : List Track, ∀ m : List (ℕ × List ℕ),
      ∀ x ∈ (l.foldl (fun m t => assocAppend m t.id (track_edges t)) m).map Prod.fst,
      x ∈ m.map Prod.fst ∨ x ∈ l.map (fun t => t.id) by
    intro x hx
    rcases h tracks [] x hx with h2 | h2
    · cases h2
    · exact h2
  intro l
  induction l with
  | nil =>
    intro m x hx
    exact Or.inl hx
  | cons t rest ih =>
    intro m x hx
    simp only [List.foldl_cons] at hx
    rcases ih (assocAppend m t.id (track_edges t)) x hx with h2 | h2
    · rcases assocAppend_keys_mem h2 with h3 | h3
      · exact Or.inl h3
      · exact Or.inr (by simp [List.mem_cons]; left; exact h3)
    · exact Or.inr (by simp only [List.map_cons, List.mem_cons]; right; exact h2)

/-- Completeness of the cycle check: if the first validation phase passes and
the routing graph has a cycle, `validate_routing_graph` reports exactly the
routing-cycle error. -/
theorem validate_routing_graph_cycle (tracks : List Track)
    (htargets : validate_routing_targets tracks tracks = .ok ())
    (hcycle : HasRoutingCycle tracks) :
    validate_routing_graph tracks = .error .RoutingCycleDetected := by
  unfold validate_routing_graph
  rw [htargets]
  by_cases hb : (detect_cycle_roots (adjacencyOf tracks)
      (tracks.map (fun t => t.id)) ∅).1 = true
  · rw [if_pos hb]
  · exfalso
    have hbf : (detect_cycle_roots (adjacencyOf tracks)
        (tracks.map (fun t => t.id)) ∅).1 = false := Bool.not_eq_true _ ▸ hb
    obtain ⟨hclean, _, hall⟩ := detect_cycle_roots_false_spec (adjacencyOf tracks)
      (tracks.map (fun t => t.id)) ∅ (cleanSet_empty _) hbf
    obtain ⟨a, hcyc⟩ := hcycle
    obtain ⟨c, he, _⟩ := Relation.TransGen.head'_iff.mp hcyc
    obtain ⟨ns, hns, _⟩ := he
    have hkey : a ∈ adjKeys (adjacencyOf tracks) := adjLookup_mem_keys hns
    have hid : a ∈ tracks.map (fun t => t.id) := by
      apply adjacencyOf_keys_sub
      unfold adjKeys at hkey
      exact List.mem_toFinset.mp hkey
    exact hclean.2 a (hall a hid) hcyc

/-- C3: from a state whose routing targets validate, a `patch_track_mix`
setting an output bus or an `upsert_track_send` whose candidate track list
has a routing cycle returns the routing-cycle error, and the committed track
list (the first component) is exactly the pre-call list: no partial mutation
is committed. -/
theorem routing_cycle_rejected_atomically (tracks : List Track) (track_id : ℕ)
    (patch : TrackMixPatch) (send : TrackSend) (fresh_id : ℕ) :
    (∀ target, patch.output_bus = some (some target) →
      validate_bus_target tracks track_id target = .ok () →
      (tracks.find? (fun t => t.id = track_id)).isSome →
      validate_routing_targets
        (update_first tracks track_id (fun t => apply_mix_patch t patch))
        (update_first tracks track_id (fun t => apply_mix_patch t patch)) = .ok () →
      HasRoutingCycle (update_first tracks track_id (fun t => apply_mix_patch t patch)) →
      patch_track_mix tracks track_id patch =
        (tracks, .error .RoutingCycleDetected)) ∧
    (validate_bus_target tracks track_id
        (sanitize_track_send send fresh_id).target_bus = .ok () →
      (tracks.find? (fun t => t.id = track_id)).isSome →
      validate_routing_targets
        (update_first tracks track_id
          (fun t => upsert_send_in_track t (sanitize_track_send send fresh_id)))
        (update_first tracks track_id
          (fun t => upsert_send_in_track t (sanitize_track_send send fresh_id))) = .ok () →
      HasRoutingCycle (update_first tracks track_id
        (fun t => upsert_send_in_track t (sanitize_track_send send fresh_id))) →
      upsert_track_send tracks track_id send fresh_id =
        (tracks, .error .RoutingCycleDetected)) := by
  constructor
  · intro target hob hvb hfind htargets hcycle
    obtain ⟨t, ht⟩ := Option.isSome_iff_exists.mp hfind
    unfold patch_track_mix
    simp only [hob, hvb, ht, validate_routing_graph_cycle _ htargets hcycle]
  · intro hvb hfind htargets hcycle
    obtain ⟨t, ht⟩ := Option.isSome_iff_exists.mp hfind
    unfold upsert_track_send
    simp only [hvb, ht, validate_routing_graph_cycle _ htargets hcycle]

/-- Bus track A of the C3 witness state. -/
def track_c3_a : Track :=
  { id := 1, name := "bus a", kind := .Bus, hidden := false, mute := false, solo := false, enabled := true, gain_db := 0, pan := 0, output_bus := none, sends := [], effects := [], clips := [] }

/-- Bus track B of the C3 witness state, already routed to A. -/
def track_c3_b : Track :=
  { id := 2, name := "bus b", kind := .Bus, hidden := false, mute := false, solo := false, enabled := true, gain_db := 0, pan := 0, output_bus := some 1, sends := [], effects := [], clips := [] }

def tracks_c3 : List Track := [track_c3_a, track_c3_b]

/-- The mutation of the C3 witness: route A to B, closing the two-bus cycle. -/
def patch_c3 : TrackMixPatch :=
  { gain_db := none, pan := none, output_bus := some (some 2) }

def send_c3 : TrackSend :=
  { id := 0, target_bus := 0, level_db := 0, pan := 0, pre_fader := false, enabled := true }

/-- Witness for C3: the two-bus cycle A to B to A is rejected with the
routing-cycle error and the committed track list is unchanged. -/
theorem routing_cycle_rejected_atomically_witness :
    patch_track_mix tracks_c3 1 patch_c3 =
      (tracks_c3, Except.error EngineError.RoutingCycleDetected) := by
  have e12 : RouteEdge (update_first tracks_c3 1 (fun t => apply_mix_patch t patch_c3)) 1 2 :=
    ⟨[2], rfl, by decide⟩
  have e21 : RouteEdge (update_first tracks_c3 1 (fun t => apply_mix_patch t patch_c3)) 2 1 :=
    ⟨[1], rfl, by decide⟩
  have hcycle : HasRoutingCycle
      (update_first tracks_c3 1 (fun t => apply_mix_patch t patch_c3)) :=
    ⟨1, Relation.TransGen.head e12 (Relation.TransGen.single e21)⟩
  exact (routing_cycle_rejected_atomically tracks_c3 1 patch_c3 send_c3 7).1 2
    rfl rfl rfl rfl hcycle

/-! ## Buffer length and determinism lemmas -/

theorem add_in_place_length (target source : List ℚ) :
    (add_in_place target source).length = target.length := by
  unfold add_in_place
  rw [List.length_append, List.length_zipWith, List.length_drop]
  omega

theorem add_scaled_in_place_length (target source : List ℚ) (gain : ℚ) :
    (add_scaled_in_place target source gain).length = target.length := by
  unfold add_scaled_in_place
  rw [List.length_append, List.length_zipWith, List.length_drop]
  omega

theorem scale_buffer_length (buffer : List ℚ) (gain : ℚ) :
    (scale_buffer buffer gain).length = buffer.length := by
  unfold scale_buffer
  rw [List.length_map]

theorem map_with_state_length {σ : Type} (f : σ → ℚ → σ × ℚ) :
    ∀ (s : σ) (l : List ℚ), (map_with_state f s l).length = l.length := by
  intro s l
  induction l generalizing s with
  | nil => rfl
  | cons x rest ih =>
    simp only [map_with_state, List.length_cons]
    rw [ih]

theorem apply_eq_length (F : FloatOps) (effect : EffectSpec) (buffer : List ℚ)
    (sample_rate : ℕ) :
    (apply_eq F effect buffer sample_rate).length = buffer.length := by
  unfold apply_eq
  exact map_with_state_length _ _ _

theorem apply_compressor_length (F : FloatOps) (effect : EffectSpec)
    (buffer : List ℚ) (sample_rate : ℕ) :
    (apply_compressor F effect buffer sample_rate).length = buffer.length := by
  unfold apply_compressor
  exact map_with_state_length _ _ _

theorem apply_reverb_length (F : FloatOps) (effect : EffectSpec) (buffer : List ℚ)
    (sample_rate : ℕ) :
    (apply_reverb F effect buffer sample_rate).length = buffer.length := by
  unfold apply_reverb
  exact map_with_state_length _ _ _

theorem apply_delay_length (F : FloatOps) (effect : EffectSpec) (buffer : List ℚ)
    (sample_rate : ℕ) :
    (apply_delay F effect buffer sample_rate).length = buffer.length := by
  unfold apply_delay
  exact map_with_state_length _ _ _

theorem apply_limiter_length (F : FloatOps) (effect : EffectSpec) (buffer : List ℚ)
    (sample_rate : ℕ) :
    (apply_limiter F effect buffer sample_rate).length = buffer.length := by
  unfold apply_limiter
  exact map_with_state_length _ _ _

theorem apply_bitcrusher_length (effect : EffectSpec) (buffer : List ℚ) :
    (apply_bitcrusher effect buffer).length = buffer.length := by
  unfold apply_bitcrusher
  exact map_with_state_length _ _ _

theorem apply_effect_length (F : FloatOps) (effect : EffectSpec) (buffer : List ℚ)
    (sample_rate : ℕ) :
    (apply_effect F effect buffer sample_rate).length = buffer.length := by
  unfold apply_effect
  dsimp only
  split_ifs <;>
    first
    | rfl
    | exact apply_eq_length _ _ _ _
    | exact apply_compressor_length _ _ _ _
    | exact apply_reverb_length _ _ _ _
    | exact apply_delay_length _ _ _ _
    | exact apply_limiter_length _ _ _ _
    | exact apply_bitcrusher_length _ _

theorem apply_track_effect_chain_length (F : FloatOps) (track : Track)
    (buffer : List ℚ) (sample_rate : ℕ) :
    (apply_track_effect_chain F track buffer sample_rate).length = buffer.length := by
  unfold apply_track_effect_chain
  generalize track.effects.filter (fun e => e.enabled) = effects
  induction effects generalizing buffer with
  | nil => rfl
  | cons e rest ih =>
    simp only [List.foldl_cons]
    rw [ih, apply_effect_length]

theorem route_buffer_master_length (signal : List ℚ) (target_bus : Option ℕ)
    (gain : ℚ) (pending : List (ℕ × List ℚ)) (master : List ℚ) :
    (route_buffer signal target_bus gain pending master).2.length = master.length := by
  unfold route_buffer
  split
  · rfl
  · split
    · rfl
    · exact add_scaled_in_place_length _ _ _

theorem foldl_preserve_master_length {β : Type}
    (f : List (ℕ × List ℚ) × List ℚ → β → List (ℕ × List ℚ) × List ℚ)
    (hf : ∀ st b, (f st b).2.length = st.2.length) :
    ∀ (l : List β) (st : List (ℕ × List ℚ) × List ℚ),
      ((l.foldl f st).2).length = st.2.length := by
  intro l
  induction l with
  | nil =>
    intro st
    rfl
  | cons x rest ih =>
    intro st
    simp only [List.foldl_cons]
    rw [ih, hf]

theorem mix_track_master_length (F : FloatOps) (p : Project)
    (track_sources : List (ℕ × List ℚ)) (frame_count : ℕ)
    (st : List (ℕ × List ℚ) × List ℚ) (track_id : ℕ) :
    (mix_track F p track_sources frame_count st track_id).2.length = st.2.length := by
  unfold mix_track
  split
  · rfl
  · split
    · rfl
    · dsimp only
      rw [foldl_preserve_master_length]
      · exact route_buffer_master_length _ _ _ _ _
      · intro st2 send
        exact route_buffer_master_length _ _ _ _ _

theorem render_core_master_length (F : FloatOps)
    (decode : String → Option DecodedAudio) (p : Project) (tail_seconds : ℚ) :
    (render_core F decode p tail_seconds).1.length =
      render_frame_count p tail_seconds := by
  unfold render_core
  dsimp only
  rw [foldl_preserve_master_length]
  · exact List.length_replicate _ _
  · intro st tid
    exact mix_track_master_length F p _ _ st tid

theorem finish_render_length (master : List ℚ) (leftovers : List (ℕ × List ℚ)) :
    (finish_render master leftovers).length = master.length := by
  unfold finish_render
  rw [List.length_map]
  induction leftovers generalizing master with
  | nil => rfl
  | cons kv rest ih =>
    simp only [List.foldl_cons]
    rw [ih, add_scaled_in_place_length]

theorem render_length (F : FloatOps) (decode : String → Option DecodedAudio)
    (p : Project) (tail_seconds : ℚ) (leftovers : List (ℕ × List ℚ)) :
    (render_project_samples_order F decode p tail_seconds leftovers).length =
      render_frame_count p tail_seconds := by
  unfold render_project_samples_order
  rw [finish_render_length, render_core_master_length]

theorem add_scaled_in_place_nil (t : List ℚ) (g : ℚ) :
    add_scaled_in_place t [] g = t := by
  unfold add_scaled_in_place
  simp

theorem add_scaled_in_place_nil_left (s : List ℚ) (g : ℚ) :
    add_scaled_in_place [] s g = [] := by
  unfold add_scaled_in_place
  simp

theorem add_scaled_in_place_cons (x v : ℚ) (t s : List ℚ) (g : ℚ) :
    add_scaled_in_place (x :: t) (v :: s) g =
      (x + v * g) :: add_scaled_in_place t s g := by
  unfold add_scaled_in_place
  simp only [List.zipWith_cons_cons, List.length_cons, List.drop_succ_cons,
    List.cons_append]

theorem add_scaled_in_place_comm :
    ∀ (m a b : List ℚ) (ga gb : ℚ),
      add_scaled_in_place (add_scaled_in_place m a ga) b gb =
        add_scaled_in_place (add_scaled_in_place m b gb) a ga := by
  intro m
  induction m with
  | nil =>
    intro a b ga gb
    simp only [add_scaled_in_place_nil_left]
  | cons x mrest ih =>
    intro a b ga gb
    cases a with
    | nil => rw [add_scaled_in_place_nil, add_scaled_in_place_nil]
    | cons va arest =>
      cases b with
      | nil => rw [add_scaled_in_place_nil, add_scaled_in_place_nil]
      | cons vb brest =>
        rw [add_scaled_in_place_cons, add_scaled_in_place_cons,
          add_scaled_in_place_cons, add_scaled_in_place_cons, ih]
        congr 1
        ring

/-- A trivial instantiation of the abstract float library, for concrete
evaluations. -/
def fops_triv : FloatOps :=
  { pow10 := fun _ => 1, log10 := fun _ => 0, exp := fun _ => 1, tanh := fun x => x, pow2 := fun _ => 1, tau := 628 / 100 }

/-- A decode collaborator with no decodable sources. -/
def decode_none : String → Option DecodedAudio := fun _ => none

/-- A clipless project at 44.1 kHz. -/
def project_empty : Project :=
  { bpm := 120, ppq := 480, sample_rate := 44100, tracks := [] }

/-! ## C1: rendered buffer length -/

/-- C1 counterexample: for the empty project and tail 0 the rendered buffer
has one second of frames (44100), not the claimed latest-end-tick samples
plus tail samples (which is 0): the one-second floor overrides the sum. -/
theorem render_buffer_length_counterexample :
    (render_project_samples fops_triv decode_none project_empty 0).length ≠
      ticks_to_samples project_empty.max_tick project_empty.bpm project_empty.ppq
          project_empty.sample_rate +
        (roundAway (max (0 : ℚ) 0 * (project_empty.sample_rate : ℚ))).toNat := by
  have hlen : (render_project_samples fops_triv decode_none project_empty 0).length =
      render_frame_count project_empty 0 := render_length _ _ _ _ _
  have hfc : render_frame_count project_empty 0 = 44100 := by
    unfold render_frame_count effective_sample_rate project_empty Project.max_tick
    unfold ticks_to_samples ticks_to_seconds roundAway
    norm_num
  rw [hlen, hfc]
  unfold project_empty Project.max_tick ticks_to_samples ticks_to_seconds roundAway
  norm_num

/-- C1 amended: the buffer length is the maximum of (samples for the latest
clip end tick plus tail samples) and one second of frames, all at the
effective sample rate max(project sample rate, 8000); in particular it is
never below one second of audio. -/
theorem render_buffer_length_amended (F : FloatOps)
    (decode : String → Option DecodedAudio) (p : Project) (tail_seconds : ℚ) :
    (render_project_samples F decode p tail_seconds).length =
      max (ticks_to_samples p.max_tick p.bpm p.ppq (max p.sample_rate 8000) +
          (roundAway (max tail_seconds 0 * ((max p.sample_rate 8000 : ℕ) : ℚ))).toNat)
        (max p.sample_rate 8000) ∧
    max p.sample_rate 8000 ≤ (render_project_samples F decode p tail_seconds).length := by
  have h : (render_project_samples F decode p tail_seconds).length =
      render_frame_count p tail_seconds := render_length _ _ _ _ _
  rw [h]
  constructor
  · rfl
  · exact le_max_right _ _

/-! ## C2: final hard clamp -/

/-- C2: every sample of the rendered buffer lies in the closed interval
[-1, 1]. -/
theorem render_samples_clamped (F : FloatOps)
    (decode : String → Option DecodedAudio) (p : Project) (tail_seconds : ℚ)
    (x : ℚ) (hx : x ∈ render_project_samples F decode p tail_seconds) :
    -1 ≤ x ∧ x ≤ 1 := by
  unfold render_project_samples render_project_samples_order finish_render at hx
  obtain ⟨y, _, hy⟩ := List.mem_map.mp hx
  rw [← hy]
  exact qclamp_mem (by norm_num)

/-- Witness for C2: the empty project renders to a buffer containing sample
0, which the theorem bounds into [-1, 1]. -/
theorem render_samples_clamped_witness :
    (0 : ℚ) ∈ render_project_samples fops_triv decode_none project_empty 0 ∧
      (-1 ≤ (0 : ℚ) ∧ (0 : ℚ) ≤ 1) := by
  have hr : render_project_samples fops_triv decode_none project_empty 0 =
      (List.replicate (render_frame_count project_empty 0) (0 : ℚ)).map
        (fun frame => qclamp frame (-1) 1) := rfl
  have hne : render_frame_count project_empty 0 ≠ 0 := by
    have h1 : max project_empty.sample_rate 8000 ≤ render_frame_count project_empty 0 :=
      le_max_right _ _
    have h2 : 8000 ≤ max project_empty.sample_rate 8000 := le_max_right _ _
    intro h0
    rw [h0] at h1
    omega
  have hmem : (0 : ℚ) ∈ render_project_samples fops_triv decode_none project_empty 0 := by
    rw [hr]
    apply List.mem_map.mpr
    refine ⟨0, List.mem_replicate.mpr ⟨hne, rfl⟩, ?_⟩
    unfold qclamp
    norm_num
  exact ⟨hmem, render_samples_clamped fops_triv decode_none project_empty 0 0 hmem⟩

/-! ## C5: deterministic rendering -/

/-- C5: rendering is deterministic.  Two runs over the same project and tail
with extensionally equal decode results per source path, and with any two
iteration orders of the leftover pending-bus map (each a permutation of its
entries — the only run-to-run freedom the Rust HashMap has), produce
element-wise identical buffers. -/
theorem render_deterministic (F : FloatOps)
    (d1 d2 : String → Option DecodedAudio) (p : Project) (tail_seconds : ℚ)
    (o1 o2 : List (ℕ × List ℚ))
    (hd : ∀ path, d1 path = d2 path)
    (h1 : o1.Perm (render_core F d1 p tail_seconds).2)
    (h2 : o2.Perm (render_core F d2 p tail_seconds).2) :
    render_project_samples_order F d1 p tail_seconds o1 =
      render_project_samples_order F d2 p tail_seconds o2 := by
  have hdd : d1 = d2 := funext hd
  subst hdd
  have hperm : o1.Perm o2 := h1.trans h2.symm
  unfold render_project_samples_order finish_render
  congr 1
  exact hperm.foldl_eq'
    (fun x _ y _ z => add_scaled_in_place_comm z x.2 y.2 1 1) _

/-- Witness for C5 on the empty project: both runs (empty leftover order)
agree. -/
theorem render_deterministic_witness :
    render_project_samples_order fops_triv decode_none project_empty 0 [] =
      render_project_samples_order fops_triv decode_none project_empty 0 [] := by
  have hcore : (render_core fops_triv decode_none project_empty 0).2 = [] := rfl
  have hperm : ([] : List (ℕ × List ℚ)).Perm
      (render_core fops_triv decode_none project_empty 0).2 := by
    rw [hcore]
  exact render_deterministic fops_triv decode_none decode_none project_empty 0 [] []
    (fun _ => rfl) hperm hperm

end Voltlane
